import Mathlib

/-
  Verification of the gas-refund program of the paraswap-volume-tracker
  repository, centered on the re-validation pass
  (scripts/gas-refund-program/transactions-validation/validateTransactions.ts),
  the swap qualifier (getSuccessfulSwaps), the Merkle leaf encoding
  (src/service/transaction-fees-indexer/merkle-tree.ts) and the claim API
  (src/lib/gas-refund-api.ts).

  Monetary arithmetic in the source uses bignumber.js with default
  configuration (the repository never calls BigNumber.config), hence:
  plus / minus / multipliedBy are exact, dividedBy rounds the quotient to
  20 decimal places with ROUND_HALF_UP, and decimalPlaces(0) / toFixed(0)
  round to an integer with ROUND_HALF_UP (half away from zero).  BigNumber
  values are modelled as rationals with those rounding points explicit.

  The arithmetic below is phrased through small executable wrappers
  (qAdd, qMul, ...) built on mkRat, so that every program in this file can
  be evaluated on concrete inputs by kernel reduction; the bridge lemmas
  qAdd_eq and friends restate them as the ordinary field operations of ℚ
  for use in symbolic proofs.
-/

set_option maxRecDepth 100000

deriving instance DecidableEq for Except

namespace GRP

/-! ## Executable rational arithmetic -/

def qAdd (a b : ℚ) : ℚ := mkRat (a.num * b.den + b.num * a.den) (a.den * b.den)

def qSub (a b : ℚ) : ℚ := mkRat (a.num * b.den - b.num * a.den) (a.den * b.den)

def qMul (a b : ℚ) : ℚ := mkRat (a.num * b.num) (a.den * b.den)

def qNeg (a : ℚ) : ℚ := mkRat (-a.num) a.den

def qDiv (a b : ℚ) : ℚ :=
  if b.num < 0 then mkRat (-(a.num * b.den)) (a.den * b.num.natAbs)
  else mkRat (a.num * b.den) (a.den * b.num.natAbs)

def qSum (l : List ℚ) : ℚ := l.foldr qAdd 0

theorem qAdd_eq (a b : ℚ) : qAdd a b = a + b := by
  unfold qAdd
  have ha : (a.den : ℚ) ≠ 0 := by exact_mod_cast a.den_nz
  have hb : (b.den : ℚ) ≠ 0 := by exact_mod_cast b.den_nz
  rw [Rat.mkRat_eq_div]
  push_cast
  conv_rhs => rw [← Rat.num_div_den a, ← Rat.num_div_den b]
  field_simp

theorem qSub_eq (a b : ℚ) : qSub a b = a - b := by
  unfold qSub
  have ha : (a.den : ℚ) ≠ 0 := by exact_mod_cast a.den_nz
  have hb : (b.den : ℚ) ≠ 0 := by exact_mod_cast b.den_nz
  rw [Rat.mkRat_eq_div]
  push_cast
  conv_rhs => rw [← Rat.num_div_den a, ← Rat.num_div_den b]
  field_simp
  ring

theorem qMul_eq (a b : ℚ) : qMul a b = a * b := by
  unfold qMul
  have ha : (a.den : ℚ) ≠ 0 := by exact_mod_cast a.den_nz
  have hb : (b.den : ℚ) ≠ 0 := by exact_mod_cast b.den_nz
  rw [Rat.mkRat_eq_div]
  push_cast
  conv_rhs => rw [← Rat.num_div_den a, ← Rat.num_div_den b]
  rw [div_mul_div_comm]

theorem qNeg_eq (a : ℚ) : qNeg a = -a := by
  unfold qNeg
  rw [Rat.mkRat_eq_div]
  push_cast
  rw [neg_div, Rat.num_div_den a]

theorem qDiv_eq (a b : ℚ) : qDiv a b = a / b := by
  unfold qDiv
  have ha : (a.den : ℚ) ≠ 0 := by exact_mod_cast a.den_nz
  have hbd : (b.den : ℚ) ≠ 0 := by exact_mod_cast b.den_nz
  rcases eq_or_ne b.num 0 with h0 | h0
  · have hb0 : b = 0 := Rat.num_eq_zero.mp h0
    simp [h0, hb0, mkRat]
  · have hbn : (b.num : ℚ) ≠ 0 := by exact_mod_cast h0
    have key : a / b = ((a.num : ℚ) * b.den) / ((a.den : ℚ) * b.num) := by
      conv_lhs => rw [← Rat.num_div_den a, ← Rat.num_div_den b]
      rw [div_div_div_eq]
    rcases lt_or_gt_of_ne h0 with hneg | hpos
    · rw [if_pos hneg, Rat.mkRat_eq_div, key]
      have habs : ((b.num.natAbs : ℚ)) = -(b.num : ℚ) := by
        rw [Int.cast_natAbs, abs_of_neg hneg]
        push_cast
        ring
      push_cast [habs]
      rw [mul_neg, div_neg, neg_div, neg_neg]
    · rw [if_neg (not_lt.mpr hpos.le), Rat.mkRat_eq_div, key]
      have habs : ((b.num.natAbs : ℚ)) = (b.num : ℚ) := by
        rw [Int.cast_natAbs, abs_of_pos hpos]
      push_cast [habs]
      rfl

theorem qSum_eq (l : List ℚ) : qSum l = l.sum := by
  induction l with
  | nil => rfl
  | cons h t ih =>
    simp only [qSum, List.foldr, List.sum_cons, qAdd_eq] at *
    rw [ih]

theorem floorR_eq (q : ℚ) : Rat.floor q = ⌊q⌋ := by
  rw [Rat.floor_def', Rat.floor_def]

/-! ## The bignumber.js rounding points -/

/-- bignumber.js ROUND_HALF_UP to an integer: round half away from zero
    (decimalPlaces(0) and toFixed(0) with the library default mode 4). -/
def bnRound0 (q : ℚ) : ℚ :=
  if 0 ≤ q then ((Rat.floor (qAdd q (mkRat 1 2)) : ℤ) : ℚ)
  else ((-(Rat.floor (qAdd (qNeg q) (mkRat 1 2))) : ℤ) : ℚ)

/-- The scaling factor of 20 decimal places. -/
def e20 : ℚ := 100000000000000000000

/-- PSP token decimals: 10 to the 18. -/
def e18 : ℚ := 1000000000000000000

/-- bignumber.js dividedBy: exact quotient rounded to DECIMAL_PLACES = 20
    decimal places with ROUND_HALF_UP (library defaults). -/
def bnDiv (a b : ℚ) : ℚ :=
  qDiv (bnRound0 (qMul (qDiv a b) e20)) e20

theorem bnRound0_eq (q : ℚ) :
    bnRound0 q = if 0 ≤ q then ((⌊q + 1/2⌋ : ℤ) : ℚ) else ((-⌊-q + 1/2⌋ : ℤ) : ℚ) := by
  unfold bnRound0
  have hhalf : (mkRat 1 2 : ℚ) = 1/2 := by norm_num [Rat.mkRat_eq_div]
  rw [floorR_eq, floorR_eq, qAdd_eq, qAdd_eq, qNeg_eq, hhalf]

theorem bnDiv_eq (a b : ℚ) :
    bnDiv a b = bnRound0 (a / b * 100000000000000000000) / 100000000000000000000 := by
  unfold bnDiv e20
  rw [qDiv_eq, qMul_eq, qDiv_eq]

/-! ## Data model of the re-validation pass -/

/-- Status column of a GasRefundTransaction row. -/
inductive TxStatus
  | idle
  | validated
  | rejected
deriving DecidableEq, Repr

/-- One persisted GasRefundTransaction row, restricted to the attributes the
    re-validation pass reads
    (validateTransactions.ts, findAll attributes, plus timestamp which the
    ORDER BY clause uses server-side). -/
structure Row where
  id : ℕ
  epoch : ℤ
  hash : String
  address : String
  timestamp : ℕ
  status : TxStatus
  totalStakeAmountPSP : ℚ
  gasUsedChainCurrency : ℚ
  pspChainCurrency : ℚ
  pspUsd : ℚ
  refundedAmountUSD : ℚ
  refundedAmountPSP : ℚ
deriving DecidableEq, Repr

/-- Modelled from the spec: the epoch-gated constants of the missing
    `src/lib/gas-refund` module (GasRefundGenesisEpoch,
    GasRefundBudgetLimitEpochBasedStartEpoch,
    GasRefundPrecisionGlitchRefundedAmountsEpoch).  The spec leaves their
    numeric values configurable, so they are carried as parameters. -/
structure Consts where
  genesisEpoch : ℤ
  budgetLimitEpoch : ℤ
  glitchEpoch : ℤ
deriving DecidableEq, Repr

/-- TOTAL_EPOCHS_IN_YEAR (spec: EPOCHS_PER_YEAR = 26). -/
def totalEpochsInYear : ℤ := 26

/-- MAX_PSP_GLOBAL_BUDGET_YEARLY = 30,000,000 PSP in 18 decimals. -/
def maxPSPGlobalBudgetYearly : ℚ := 30000000000000000000000000

/-- MAX_USD_ADDRESS_BUDGET_YEARLY = 30,000 USD. -/
def maxUSDAddressBudgetYearly : ℚ := 30000

/-- MAX_USD_ADDRESS_BUDGET_EPOCH = MAX_USD_ADDRESS_BUDGET_YEARLY / 26. -/
def maxUSDAddressBudgetEpoch : ℚ := qDiv maxUSDAddressBudgetYearly 26

/-- Modelled from the spec: `getRefundPercent` of the missing
    `src/lib/gas-refund` module, section 4.1 of the spec (tiers ordered
    descending by minStake; identical to the older in-repo copy in
    src/service/transaction-fees-indexer/gas-refund.ts). -/
def getRefundPercent (stake : ℚ) : Option ℚ :=
  if 500000000000000000000000 ≤ stake then some 1
  else if 50000000000000000000000 ≤ stake then some (mkRat 3 4)
  else if 5000000000000000000000 ≤ stake then some (mkRat 1 2)
  else if 500000000000000000000 ≤ stake then some (mkRat 1 4)
  else none

/-- Modelled from the spec: the in-memory state of the missing
    GRPBudgetGuardian module (spec section 4.5, BudgetState): a global PSP
    counter and two per-address USD maps. -/
structure GuardianState where
  totalPSPRefundedForYear : ℚ
  yearlyUsd : String → ℚ
  epochUsd : String → ℚ

/-- Modelled from the spec: guardian queries use greater-or-equal
    comparison (as the earlier in-repo GRPMaxLimitGuardian does with
    isGreaterThanOrEqualTo). -/
def GuardianState.isMaxYearlyPSPGlobalBudgetSpent (st : GuardianState) : Prop :=
  maxPSPGlobalBudgetYearly ≤ st.totalPSPRefundedForYear

def GuardianState.hasSpentYearlyUSDBudget (st : GuardianState) (a : String) : Prop :=
  maxUSDAddressBudgetYearly ≤ st.yearlyUsd a

def GuardianState.hasSpentUSDBudgetForEpoch (st : GuardianState) (a : String) : Prop :=
  maxUSDAddressBudgetEpoch ≤ st.epochUsd a

instance (st : GuardianState) : Decidable st.isMaxYearlyPSPGlobalBudgetSpent := by
  unfold GuardianState.isMaxYearlyPSPGlobalBudgetSpent; infer_instance

instance (st : GuardianState) (a : String) : Decidable (st.hasSpentYearlyUSDBudget a) := by
  unfold GuardianState.hasSpentYearlyUSDBudget; infer_instance

instance (st : GuardianState) (a : String) : Decidable (st.hasSpentUSDBudgetForEpoch a) := by
  unfold GuardianState.hasSpentUSDBudgetForEpoch; infer_instance

/-- Modelled from the spec: beginEpoch clears the per-epoch USD map
    (guardian.cleanEpochBudgetState). -/
def GuardianState.cleanEpochBudgetState (st : GuardianState) : GuardianState :=
  { st with epochUsd := fun _ => 0 }

/-- Modelled from the spec: the yearly state (global PSP counter and yearly
    per-address USD map) is cleared every 26 epochs
    (guardian.cleanYearlyBudgetState). -/
def GuardianState.cleanYearlyBudgetState (st : GuardianState) : GuardianState :=
  { st with totalPSPRefundedForYear := 0, yearlyUsd := fun _ => 0 }

def GuardianState.increaseRefundedUSDForEpoch
    (st : GuardianState) (a : String) (v : ℚ) : GuardianState :=
  { st with epochUsd := fun b => if b = a then qAdd (st.epochUsd a) v else st.epochUsd b }

def GuardianState.increaseYearlyRefundedUSD
    (st : GuardianState) (a : String) (v : ℚ) : GuardianState :=
  { st with yearlyUsd := fun b => if b = a then qAdd (st.yearlyUsd a) v else st.yearlyUsd b }

def GuardianState.increaseTotalRefundedPSP (st : GuardianState) (v : ℚ) : GuardianState :=
  { st with totalPSPRefundedForYear := qAdd st.totalPSPRefundedForYear v }

/-- Modelled from the spec: loadStateFromDB(upToEpochExclusive) sums
    refundedAmountPSP across validated rows with epoch below the bound, and
    groups refundedAmountUSD by address (spec section 4.5); the per-epoch
    map starts empty. -/
def loadStateFromDB (db : List Row) (toEpoch : ℤ) : GuardianState :=
  { totalPSPRefundedForYear :=
      qSum ((db.filter (fun r => r.status = .validated && r.epoch < toEpoch)).map
        (fun r => r.refundedAmountPSP))
    yearlyUsd := fun a =>
      qSum ((db.filter (fun r =>
          r.status = .validated && r.epoch < toEpoch && r.address = a)).map
        (fun r => r.refundedAmountUSD))
    epochUsd := fun _ => 0 }

/-- Modelled from the spec: fetchLastEpochRefunded of the missing
    db-persistance module returns the maximum epoch carrying status
    VALIDATED or REJECTED across all rows, if any (spec section 4.7 step 1). -/
def fetchLastEpochRefunded (db : List Row) : Option ℤ :=
  (db.filter (fun r => r.status ≠ .idle)).foldl
    (fun acc r =>
      match acc with
      | none => some r.epoch
      | some m => some (max m r.epoch))
    none

/-- Start epoch of the scan: `!lastEpochRefunded ? GasRefundGenesisEpoch :
    lastEpochRefunded + 1` — note the JavaScript truthiness test, under
    which a last refunded epoch of 0 also falls back to the genesis
    epoch. -/
def startEpochFor (c : Consts) (last : Option ℤ) : ℤ :=
  match last with
  | none => c.genesisEpoch
  | some e => if e = 0 then c.genesisEpoch else e + 1

/-- Errors surfaced by assertion failures inside validateTransactions
    (ts-essentials assert throws). -/
inductive Err
  | percentAssert
  | negCapAssert
  | globalCapAssert
  | xnorAssert
  | idleAssert
  | fuelOut
deriving DecidableEq, Repr

/-- Result of the capping helpers. -/
structure Capped where
  usd : Option ℚ
  psp : Option ℚ
deriving DecidableEq, Repr

/-- capRefundedAmountsBasedOnYearlyDollarBudget
    (validateTransactions.ts lines 215-246). -/
def capRefundedAmountsBasedOnYearlyDollarBudget
    (st : GuardianState) (address : String) (refundedAmountUSD pspUsd : ℚ) :
    Except Err Capped :=
  if maxUSDAddressBudgetYearly < qAdd (st.yearlyUsd address) refundedAmountUSD then
    let cu := qSub maxUSDAddressBudgetYearly (st.yearlyUsd address)
    if 0 ≤ cu then
      .ok ⟨some cu, some (bnRound0 (qMul (bnDiv cu pspUsd) e18))⟩
    else .error .negCapAssert
  else .ok ⟨none, none⟩

/-- capRefundedAmountsBasedOnEpochDollarBudget
    (validateTransactions.ts lines 248-293). -/
def capRefundedAmountsBasedOnEpochDollarBudget
    (st : GuardianState) (address : String) (refundedAmountUSD pspUsd : ℚ) :
    Except Err Capped :=
  if maxUSDAddressBudgetYearly < qAdd (st.yearlyUsd address) refundedAmountUSD then
    capRefundedAmountsBasedOnYearlyDollarBudget st address refundedAmountUSD pspUsd
  else if maxUSDAddressBudgetEpoch < qAdd (st.epochUsd address) refundedAmountUSD then
    let cu := qSub maxUSDAddressBudgetEpoch (st.epochUsd address)
    if 0 ≤ cu then
      .ok ⟨some cu, some (bnRound0 (qMul (bnDiv cu pspUsd) e18))⟩
    else .error .negCapAssert
  else .ok ⟨none, none⟩

/-- capRefundedPSPAmountBasedOnPSPBudget
    (validateTransactions.ts lines 295-325). -/
def capRefundedPSPAmountBasedOnPSPBudget
    (st : GuardianState) (cappedPSP : Option ℚ) (refundedAmountPSP : ℚ) :
    Except Err (Option ℚ) :=
  if maxPSPGlobalBudgetYearly <
      qAdd st.totalPSPRefundedForYear (cappedPSP.getD refundedAmountPSP) then
    let cappedToMax := qSub maxPSPGlobalBudgetYearly st.totalPSPRefundedForYear
    let c := match cappedPSP with
      | some p => min p cappedToMax
      | none => cappedToMax
    if c < refundedAmountPSP then .ok (some c) else .error .globalCapAssert
  else .ok cappedPSP

/-- Amounts re-derived per row (validateTransactions.ts lines 115-127):
    raw PSP from gasUsedChainCurrency / pspChainCurrency times the tier
    percentage, rounded to an integer when the row's epoch equals the
    precision-glitch epoch, then USD and the integer PSP amount. -/
structure Amounts where
  raw : ℚ
  usd : ℚ
  psp : ℚ
deriving DecidableEq, Repr

def computeAmounts (c : Consts) (tx : Row) (percent : ℚ) : Amounts :=
  let raw0 := qMul (bnDiv tx.gasUsedChainCurrency tx.pspChainCurrency) percent
  let raw := if tx.epoch = c.glitchEpoch then bnRound0 raw0 else raw0
  { raw := raw
    usd := bnDiv (qMul raw tx.pspUsd) e18
    psp := bnRound0 raw }

/-- One iteration of the `for (const tx of transactionsSlice)` body
    (validateTransactions.ts lines 87-190): epoch-change cleanup, tier
    lookup, amount re-derivation, classification, capping, guardian commit,
    the both-or-neither assertion, and the conditional staging of an
    update. Returns the new guardian state and the updates list. -/
def processTx (c : Consts) (st : GuardianState) (prevEpoch : ℤ)
    (ups : List Row) (tx : Row) : Except Err (GuardianState × List Row) :=
  let st0 :=
    if prevEpoch ≠ tx.epoch then
      let st1 := st.cleanEpochBudgetState
      if (tx.epoch - c.genesisEpoch) % totalEpochsInYear = 0 then
        st1.cleanYearlyBudgetState
      else st1
    else st
  match getRefundPercent tx.totalStakeAmountPSP with
  | none => .error .percentAssert
  | some percent =>
    let am := computeAmounts c tx percent
    if st0.isMaxYearlyPSPGlobalBudgetSpent ∨
        st0.hasSpentYearlyUSDBudget tx.address ∨
        (c.budgetLimitEpoch ≤ tx.epoch ∧ st0.hasSpentUSDBudgetForEpoch tx.address) then
      .ok (st0, ups)
    else do
      let caps ←
        if tx.epoch < c.budgetLimitEpoch then
          capRefundedAmountsBasedOnYearlyDollarBudget st0 tx.address am.usd tx.pspUsd
        else
          capRefundedAmountsBasedOnEpochDollarBudget st0 tx.address am.usd tx.pspUsd
      let cPSP ← capRefundedPSPAmountBasedOnPSPBudget st0 caps.psp am.psp
      let st1 :=
        if c.budgetLimitEpoch ≤ tx.epoch then
          st0.increaseRefundedUSDForEpoch tx.address (caps.usd.getD am.usd)
        else st0
      let st2 := st1.increaseYearlyRefundedUSD tx.address (caps.usd.getD am.usd)
      let st3 := st2.increaseTotalRefundedPSP (cPSP.getD am.psp)
      if cPSP.isSome = caps.usd.isSome then
        if tx.status ≠ .validated ∨ cPSP.isSome then
          .ok (st3, ups ++ [{ tx with
            status := .validated
            refundedAmountPSP :=
              match cPSP with
              | some p => bnRound0 p
              | none => tx.refundedAmountPSP
            refundedAmountUSD :=
              match caps.usd with
              | some u => u
              | none => tx.refundedAmountUSD }])
        else .ok (st3, ups)
      else .error .xnorAssert

/-- The rest of the page loop: when the fetched slice is shorter than the
    page size, the source breaks out of the for loop right after the
    current transaction (the misplaced `break` at line 196 sits inside the
    for loop, and its condition does not depend on the row). -/
def goPage (c : Consts) (isShort : Bool) :
    GuardianState → ℤ → List Row → List Row → Except Err (GuardianState × List Row)
  | st, _, ups, [] => .ok (st, ups)
  | st, prev, ups, tx :: rest => do
    let (st', ups') ← processTx c st prev ups tx
    if isShort then .ok (st', ups')
    else goPage c isShort st' tx.epoch ups' rest

/-- One fetched page: prevEpoch starts at the first row's epoch
    (validateTransactions.ts line 85, re-initialised for every slice). -/
def processPage (c : Consts) (pageSize : ℕ) (st : GuardianState)
    (slice : List Row) : Except Err (GuardianState × List Row) :=
  match slice with
  | [] => .ok (st, [])
  | h :: _ => goPage c (slice.length < pageSize) st h.epoch [] slice

/-- Row ordering used by the scan: ORDER BY timestamp, hash. -/
def rowLE (a b : Row) : Bool :=
  a.timestamp < b.timestamp || (a.timestamp = b.timestamp && a.hash ≤ b.hash)

/-- Stable insertion into a list sorted by rowLE (a deterministic model of
    the database ordering; ties beyond (timestamp, hash) keep insertion
    order). -/
def insertRow (r : Row) : List Row → List Row
  | [] => [r]
  | x :: xs => if rowLE x r then x :: insertRow r xs else r :: x :: xs

def sortRows (l : List Row) : List Row :=
  l.foldl (fun acc r => insertRow r acc) []

/-- The canonical scan of a table: rows with epoch at or above the start
    epoch, ordered by (timestamp, hash). -/
def scanOf (db : List Row) (startEpoch : ℤ) : List Row :=
  sortRows (db.filter (fun r => startEpoch ≤ r.epoch))

/-- One findAll page: LIMIT pageSize OFFSET offset over the canonical scan. -/
def scanSlice (db : List Row) (startEpoch : ℤ) (offset pageSize : ℕ) : List Row :=
  ((scanOf db startEpoch).drop offset).take pageSize

/-- updateTransactionsStatusRefundedAmounts: write back status and refunded
    amounts of the staged rows, matched by primary key. -/
def applyUpdates (db : List Row) (ups : List Row) : List Row :=
  db.map (fun r =>
    match (ups.filter (fun u => u.id = r.id)).getLast? with
    | some u => { r with
        status := u.status
        refundedAmountPSP := u.refundedAmountPSP
        refundedAmountUSD := u.refundedAmountUSD }
    | none => r)

def countIdle (db : List Row) : ℕ :=
  (db.filter (fun r => r.status = .idle)).length

/-- The `while (true)` loop of validateTransactions: fetch a page, process
    it, write back the staged updates, then assert that no row of the whole
    table is left IDLE (the assertion at lines 199-206 runs inside the
    while loop, after every page). Fuel bounds the recursion; the caller
    passes enough for every reachable execution. -/
def loopPages (c : Consts) (pageSize : ℕ) (startEpoch : ℤ) :
    ℕ → List Row → ℕ → GuardianState → Except Err (List Row)
  | 0, _, _, _ => .error .fuelOut
  | fuel + 1, db, offset, st =>
    let slice := scanSlice db startEpoch offset pageSize
    if slice.isEmpty then .ok db
    else do
      let (st', ups) ← processPage c pageSize st slice
      let db' := applyUpdates db ups
      if countIdle db' = 0 then
        loopPages c pageSize startEpoch fuel db' (offset + pageSize) st'
      else .error .idleAssert

/-- validateTransactions with the page size kept as a parameter (the source
    fixes `const pageSize = 1000`). -/
def validateTransactionsP (c : Consts) (pageSize : ℕ) (db : List Row) :
    Except Err (List Row) :=
  let startEpoch := startEpochFor c (fetchLastEpochRefunded db)
  loopPages c pageSize startEpoch (db.length + 2) db 0
    (loadStateFromDB db startEpoch)

/-- validateTransactions as shipped: page size 1000. -/
def validateTransactions (c : Consts) (db : List Row) : Except Err (List Row) :=
  validateTransactionsP c 1000 db

/-! ## Shared helper lemmas -/

theorem exceptBind_ok {α β : Type} (a : α) (f : α → Except Err β) :
    (Except.ok a >>= f) = f a := rfl

/-- When no USD cap has been produced and the yearly global PSP budget
    would be exceeded, the global-cap helper returns exactly the remaining
    PSP budget (and its own smaller-than-original assertion passes). -/
theorem capGlobal_only (st : GuardianState) (psp : ℚ)
    (hover : maxPSPGlobalBudgetYearly < qAdd st.totalPSPRefundedForYear psp) :
    capRefundedPSPAmountBasedOnPSPBudget st none psp =
      .ok (some (qSub maxPSPGlobalBudgetYearly st.totalPSPRefundedForYear)) := by
  unfold capRefundedPSPAmountBasedOnPSPBudget
  have hlt : qSub maxPSPGlobalBudgetYearly st.totalPSPRefundedForYear < psp := by
    rw [qSub_eq]
    rw [qAdd_eq] at hover
    linarith
  simp only [Option.getD, hover, if_pos, hlt]

/-! ## Sample constants and rows used by concrete runs

  The epoch-gated constants are configurable (spec section 6); the sample
  instantiation uses genesis epoch 9, epoch-based budgeting from epoch 20
  (as in scenario S2 of the spec) and precision-glitch epoch 12. -/

def cSample : Consts := ⟨9, 20, 12⟩

/-- A previously validated row that exhausted the 30,000 USD yearly budget
    of address a in epoch 9. -/
def rowPriorUSD : Row :=
  { id := 1, epoch := 9, hash := "0xh1", address := "0xa", timestamp := 100
    status := .validated, totalStakeAmountPSP := 500000000000000000000
    gasUsedChainCurrency := 0, pspChainCurrency := 1, pspUsd := 1
    refundedAmountUSD := 30000, refundedAmountPSP := 0 }

/-- An IDLE row of the same address in epoch 10: it re-derives a 2 USD /
    2 PSP refund, and must be rejected because the yearly USD budget is
    already spent. -/
def rowIdleA : Row :=
  { id := 2, epoch := 10, hash := "0xh2", address := "0xa", timestamp := 200
    status := .idle, totalStakeAmountPSP := 500000000000000000000
    gasUsedChainCurrency := 8000000000000000000, pspChainCurrency := 1, pspUsd := 1
    refundedAmountUSD := 2, refundedAmountPSP := 2000000000000000000 }

/-- A previously validated row that pushed totalPSPRefundedForYear to
    29,999,999.5 PSP (times 10^18), half a token below the global cap. -/
def rowPriorPSP : Row :=
  { id := 1, epoch := 9, hash := "0xh1", address := "0xb", timestamp := 100
    status := .validated, totalStakeAmountPSP := 500000000000000000000
    gasUsedChainCurrency := 0, pspChainCurrency := 1, pspUsd := 1
    refundedAmountUSD := 0, refundedAmountPSP := 29999999500000000000000000 }

/-! ## Claim C1 -/

/-- Claim C1 (code bug): the claim states that after the re-validation pass
    completes every scanned row is VALIDATED or REJECTED, and in particular
    that a previously IDLE row the pass classifies as REJECTED is written
    back with the new status.  The code stages updates only inside the
    VALIDATED branch (validateTransactions.ts lines 178-189 sit in the else
    of the classification), so a rejected IDLE row is never written back:
    it stays IDLE and the pass aborts on its own zero-IDLE assertion
    instead of completing.  Concretely, with the yearly USD budget already
    exhausted for address a, the single scanned IDLE row is classified
    REJECTED and validateTransactions throws the idle-count assertion. -/
theorem claimC1_code_bug_eval :
    validateTransactions cSample [rowPriorUSD, rowIdleA] = .error .idleAssert := by
  decide

/-! ## Claim C2 -/

/-- Claim C2 (counterexample): in the S3 scenario — totalPSPRefundedForYear
    at 29,999,999.5 PSP (scaled), a swap deriving refundPSP = 2 PSP, no
    per-address cap tripping — the claim says the pass commits and stages
    the transaction normally with no assertion failing.  Running the pass
    on exactly that persisted state aborts with the xnor (both-or-neither)
    assertion instead. -/
theorem claimC2_counterexample :
    validateTransactions cSample [rowPriorPSP, rowIdleA] = .error .xnorAssert := by
  decide

/-- Claim C2 (amended): for a transaction classified VALIDATED for which
    neither per-address USD cap trips but the yearly global PSP budget
    would be exceeded, capping produces
    cappedPSP = MAX_PSP_GLOBAL_YEARLY - totalPSPRefundedForYear with
    cappedUSD left unset; the both-or-neither assertion then fails, so the
    pass aborts with the xnor assertion error instead of staging the
    transaction. -/
theorem claimC2_amended (c : Consts) (st : GuardianState) (tx : Row) (p : ℚ)
    (hpct : getRefundPercent tx.totalStakeAmountPSP = some p)
    (hng : ¬ st.isMaxYearlyPSPGlobalBudgetSpent)
    (hny : ¬ st.hasSpentYearlyUSDBudget tx.address)
    (hne : ¬ st.hasSpentUSDBudgetForEpoch tx.address)
    (hycap : ¬ (maxUSDAddressBudgetYearly <
      qAdd (st.yearlyUsd tx.address) (computeAmounts c tx p).usd))
    (hecap : ¬ (maxUSDAddressBudgetEpoch <
      qAdd (st.epochUsd tx.address) (computeAmounts c tx p).usd))
    (hover : maxPSPGlobalBudgetYearly <
      qAdd st.totalPSPRefundedForYear (computeAmounts c tx p).psp)
    (ups : List Row) :
    capRefundedPSPAmountBasedOnPSPBudget st none (computeAmounts c tx p).psp =
      .ok (some (qSub maxPSPGlobalBudgetYearly st.totalPSPRefundedForYear)) ∧
    processTx c st tx.epoch ups tx = .error .xnorAssert := by
  refine ⟨capGlobal_only st (computeAmounts c tx p).psp hover, ?_⟩
  unfold processTx
  simp only [ne_eq, not_true_eq_false, if_false, hpct]
  rw [if_neg]
  · have hcapY : capRefundedAmountsBasedOnYearlyDollarBudget st tx.address
        (computeAmounts c tx p).usd tx.pspUsd = .ok ⟨none, none⟩ := by
      unfold capRefundedAmountsBasedOnYearlyDollarBudget
      rw [if_neg hycap]
    have hcapE : capRefundedAmountsBasedOnEpochDollarBudget st tx.address
        (computeAmounts c tx p).usd tx.pspUsd = .ok ⟨none, none⟩ := by
      unfold capRefundedAmountsBasedOnEpochDollarBudget
      rw [if_neg hycap, if_neg hecap]
    have hglob := capGlobal_only st (computeAmounts c tx p).psp hover
    rcases lt_or_ge tx.epoch c.budgetLimitEpoch with hlt | hge
    · rw [if_pos hlt, hcapY, exceptBind_ok, hglob, exceptBind_ok]
      simp [Option.isSome]
    · rw [if_neg (not_lt.mpr hge), hcapE, exceptBind_ok, hglob, exceptBind_ok]
      simp [Option.isSome]
  · push_neg
    exact ⟨hng, hny, fun _ => hne⟩

/-- The guardian state after loading the rowPriorPSP history. -/
def stS3 : GuardianState :=
  ⟨29999999500000000000000000, fun _ => 0, fun _ => 0⟩

/-- Claim C2 witness: the amended claim applied to the concrete S3
    scenario, where the remaining global budget is 0.5 PSP (times 10^18). -/
theorem claimC2_amended_witness :
    capRefundedPSPAmountBasedOnPSPBudget stS3 none
        (computeAmounts cSample rowIdleA (mkRat 1 4)).psp =
      .ok (some (qSub maxPSPGlobalBudgetYearly stS3.totalPSPRefundedForYear)) ∧
    processTx cSample stS3 rowIdleA.epoch [] rowIdleA = .error .xnorAssert :=
  claimC2_amended cSample stS3 rowIdleA (mkRat 1 4)
    (by decide) (by decide) (by decide) (by decide)
    (by decide) (by decide) (by decide) []

/-! ## Claim C3 -/

/-- Two fresh IDLE rows of distinct addresses in epoch 9, both validating
    cleanly with no capping. -/
def rowFresh1 : Row :=
  { id := 1, epoch := 9, hash := "0xh1", address := "0xa", timestamp := 100
    status := .idle, totalStakeAmountPSP := 500000000000000000000
    gasUsedChainCurrency := 4000000000000000000, pspChainCurrency := 1, pspUsd := 1
    refundedAmountUSD := 1, refundedAmountPSP := 1000000000000000000 }

def rowFresh2 : Row :=
  { id := 2, epoch := 9, hash := "0xh2", address := "0xc", timestamp := 200
    status := .idle, totalStakeAmountPSP := 500000000000000000000
    gasUsedChainCurrency := 4000000000000000000, pspChainCurrency := 1, pspUsd := 1
    refundedAmountUSD := 1, refundedAmountPSP := 1000000000000000000 }

/-- Claim C3 (code bug): the determinism requirement says identical row
    sets produce identical (status, refundedAmountPSP, refundedAmountUSD)
    for every page size.  With two scanned IDLE rows, page size 2 processes
    the full page and validates both rows, while page size 1000 (the
    shipped constant) fetches a short page, breaks out of the for loop
    after the first row (the misplaced break at line 196), leaves the
    second row IDLE and aborts on the zero-IDLE assertion: the two page
    sizes produce different outcomes on the same input. -/
theorem claimC3_code_bug_eval :
    validateTransactionsP cSample 2 [rowFresh1, rowFresh2] =
      .ok [{ rowFresh1 with status := .validated },
           { rowFresh2 with status := .validated }] ∧
    validateTransactionsP cSample 1000 [rowFresh1, rowFresh2] =
      .error .idleAssert := by
  constructor <;> decide



theorem exceptBind_err {α β : Type} (e : Err) (f : α → Except Err β) :
    ((Except.error e : Except Err α) >>= f) = Except.error e := rfl

theorem countIdle_eq_zero (db : List Row) (h : countIdle db = 0) :
    ∀ r ∈ db, r.status ≠ .idle := by
  intro r hr
  unfold countIdle at h
  rw [List.length_eq_zero] at h
  intro hs
  have : r ∈ db.filter (fun r => r.status = .idle) := by
    rw [List.mem_filter]
    exact ⟨hr, by simp [hs]⟩
  rw [h] at this
  exact absurd this (List.not_mem_nil r)

theorem foldl_maxstep_some (l : List Row) (m : ℤ) :
    ∃ M, l.foldl (fun acc r =>
      match acc with
      | none => some r.epoch
      | some m => some (max m r.epoch)) (some m) = some M ∧
      m ≤ M ∧ ∀ r ∈ l, r.epoch ≤ M := by
  induction l generalizing m with
  | nil => exact ⟨m, rfl, le_refl m, by simp⟩
  | cons x xs ih =>
    obtain ⟨M, hM, hle, hall⟩ := ih (max m x.epoch)
    refine ⟨M, ?_, ?_, ?_⟩
    · simpa [List.foldl] using hM
    · exact le_trans (le_max_left m x.epoch) hle
    · intro r hr
      rcases List.mem_cons.mp hr with rfl | hr
      · exact le_trans (le_max_right m r.epoch) hle
      · exact hall r hr

theorem fetchLast_spec (db : List Row) (x : Row) (hx : x ∈ db) (hxs : x.status ≠ .idle) :
    ∃ M, fetchLastEpochRefunded db = some M ∧
      ∀ r ∈ db, r.status ≠ .idle → r.epoch ≤ M := by
  unfold fetchLastEpochRefunded
  have hmem : x ∈ db.filter (fun r => decide (r.status ≠ .idle)) := by
    rw [List.mem_filter]
    exact ⟨hx, by simp [hxs]⟩
  obtain ⟨y, ys, hcons⟩ := List.exists_cons_of_ne_nil (List.ne_nil_of_mem hmem)
  rw [hcons]
  obtain ⟨M, hM, hheadle, hall⟩ := foldl_maxstep_some ys y.epoch
  refine ⟨M, by simpa [List.foldl] using hM, ?_⟩
  intro r hr hrs
  have : r ∈ db.filter (fun r => decide (r.status ≠ .idle)) := by
    rw [List.mem_filter]
    exact ⟨hr, by simp [hrs]⟩
  rw [hcons] at this
  rcases List.mem_cons.mp this with rfl | hmem2
  · exact hheadle
  · exact hall r hmem2

theorem validateP_of_scan_empty (c : Consts) (ps : ℕ) (db : List Row)
    (h : scanOf db (startEpochFor c (fetchLastEpochRefunded db)) = []) :
    validateTransactionsP c ps db = .ok db := by
  unfold validateTransactionsP
  have hs : scanSlice db (startEpochFor c (fetchLastEpochRefunded db)) 0 ps = [] := by
    simp [scanSlice, h]
  show loopPages c ps _ (db.length + 2) db 0 _ = .ok db
  rw [show db.length + 2 = (db.length + 1) + 1 from rfl]
  unfold loopPages
  simp [hs]

theorem loopPages_ok (c : Consts) (ps : ℕ) (se : ℤ) (fuel : ℕ) :
    ∀ (db : List Row) (off : ℕ) (st : GuardianState) (db' : List Row),
    loopPages c ps se fuel db off st = .ok db' →
    (db' = db ∧ scanSlice db se off ps = []) ∨ countIdle db' = 0 := by
  induction fuel with
  | zero => intro db off st db' h; exact absurd h (by simp [loopPages])
  | succ n ih =>
    intro db off st db' h
    unfold loopPages at h
    by_cases hs : (scanSlice db se off ps).isEmpty
    · rw [if_pos hs] at h
      left
      exact ⟨(Except.ok.injEq db db' ▸ h).symm ▸ rfl, List.isEmpty_iff.mp hs⟩
    · rw [if_neg hs] at h
      cases hp : processPage c ps st (scanSlice db se off ps) with
      | error e => rw [hp] at h; exact absurd h (by simp [exceptBind_err])
      | ok stups =>
        obtain ⟨st2, ups⟩ := stups
        rw [hp] at h
        rw [exceptBind_ok] at h
        simp only [] at h
        by_cases hc : countIdle (applyUpdates db ups) = 0
        · rw [if_pos hc] at h
          rcases ih _ _ _ _ h with ⟨rfl, _⟩ | hz
          · right; exact hc
          · right; exact hz
        · rw [if_neg hc] at h
          exact absurd h (by simp)


theorem validateP_of_slice_empty (c : Consts) (ps : ℕ) (db : List Row)
    (h : scanSlice db (startEpochFor c (fetchLastEpochRefunded db)) 0 ps = []) :
    validateTransactionsP c ps db = .ok db := by
  unfold validateTransactionsP
  show loopPages c ps _ (db.length + 2) db 0 _ = .ok db
  rw [show db.length + 2 = (db.length + 1) + 1 from rfl]
  unfold loopPages
  simp [h]

/-- Claim C4: running the re-validation pass twice in succession leaves
    every row's status and refunded amounts after the second run identical
    to their values after the first run, for any page size and any positive
    genesis epoch. -/
theorem claimC4_idempotent (c : Consts) (ps : ℕ) (db db1 : List Row)
    (hgen : 0 < c.genesisEpoch)
    (h : validateTransactionsP c ps db = .ok db1) :
    validateTransactionsP c ps db1 = .ok db1 := by
  have h' : loopPages c ps (startEpochFor c (fetchLastEpochRefunded db))
      (db.length + 2) db 0
      (loadStateFromDB db (startEpochFor c (fetchLastEpochRefunded db))) = .ok db1 := h
  rcases loopPages_ok c ps _ _ _ _ _ _ h' with ⟨rfl, hempty⟩ | hz
  · exact validateP_of_slice_empty c ps _ hempty
  · apply validateP_of_slice_empty
    cases hdb : db1 with
    | nil => simp [scanSlice, scanOf, sortRows]
    | cons x xs =>
      have hni := countIdle_eq_zero db1 hz
      have hx : x ∈ db1 := by rw [hdb]; exact List.mem_cons_self x xs
      obtain ⟨M, hM, hall⟩ := fetchLast_spec db1 x hx (hni x hx)
      rw [← hdb]
      rw [hM]
      have hfil : db1.filter (fun r => decide (startEpochFor c (some M) ≤ r.epoch)) = [] := by
        rw [List.filter_eq_nil_iff]
        intro r hr
        have hle : r.epoch ≤ M := hall r hr (hni r hr)
        simp only [decide_eq_true_eq, not_le]
        show r.epoch < (if M = 0 then c.genesisEpoch else M + 1)
        by_cases hM0 : M = 0
        · rw [if_pos hM0]
          calc r.epoch ≤ M := hle
            _ = 0 := hM0
            _ < c.genesisEpoch := hgen
        · rw [if_neg hM0]
          calc r.epoch ≤ M := hle
            _ < M + 1 := by linarith
      simp [scanSlice, scanOf, hfil, sortRows]


/-- Claim C4 witness: the idempotence theorem applied to the two-row table
    after its first completed pass with page size 2. -/
theorem claimC4_witness :
    validateTransactionsP cSample 2
      [{ rowFresh1 with status := .validated },
       { rowFresh2 with status := .validated }] =
    .ok [{ rowFresh1 with status := .validated },
         { rowFresh2 with status := .validated }] :=
  claimC4_idempotent cSample 2 [rowFresh1, rowFresh2] _ (by decide) (by decide)

/-! ## Claim C10: the claims endpoint (gas-refund-api.ts) -/


structure GRClaim where
  epoch : ℤ
  address : String
  refundedAmountPSP : ℕ
  merkleProofs : List String
deriving DecidableEq, Repr

structure ClaimOut where
  epoch : ℤ
  address : String
  amount : ℕ
  merkleProofs : List String
deriving DecidableEq, Repr

def gasRefundClaimsFold (merkleData : List GRClaim) (epochToClaimed : ℤ → Bool) :
    ℕ × List ClaimOut :=
  merkleData.foldl
    (fun acc claim =>
      if epochToClaimed claim.epoch then acc
      else (acc.1 + claim.refundedAmountPSP,
            acc.2 ++ [⟨claim.epoch, claim.address, claim.refundedAmountPSP,
                       claim.merkleProofs⟩]))
    (0, [])

theorem gasRefundClaimsFold_inv (f : ℤ → Bool) (md : List GRClaim) :
    ∀ (acc : ℕ × List ClaimOut),
      acc.1 = (acc.2.map (fun c => c.amount)).sum →
      (∀ cl ∈ acc.2, f cl.epoch = false) →
      (md.foldl
        (fun acc claim =>
          if f claim.epoch then acc
          else (acc.1 + claim.refundedAmountPSP,
                acc.2 ++ [⟨claim.epoch, claim.address, claim.refundedAmountPSP,
                           claim.merkleProofs⟩]))
        acc).1 =
        ((md.foldl
          (fun acc claim =>
            if f claim.epoch then acc
            else (acc.1 + claim.refundedAmountPSP,
                  acc.2 ++ [⟨claim.epoch, claim.address, claim.refundedAmountPSP,
                             claim.merkleProofs⟩]))
          acc).2.map (fun c => c.amount)).sum ∧
      ∀ cl ∈ (md.foldl
          (fun acc claim =>
            if f claim.epoch then acc
            else (acc.1 + claim.refundedAmountPSP,
                  acc.2 ++ [⟨claim.epoch, claim.address, claim.refundedAmountPSP,
                             claim.merkleProofs⟩]))
          acc).2, f cl.epoch = false := by
  induction md with
  | nil => intro acc h1 h2; exact ⟨h1, h2⟩
  | cons x xs ih =>
    intro acc h1 h2
    simp only [List.foldl]
    by_cases hx : f x.epoch
    · rw [if_pos hx] at *
      exact ih acc h1 h2
    · rw [if_neg hx]
      apply ih
      · simp [h1]
      · intro cl hcl
        rcases List.mem_append.mp hcl with h | h
        · exact h2 cl h
        · simp at h
          rw [h]
          simpa using hx

/-- Claim C10: the response of getAllGasRefundDataForAddress is internally
    consistent. -/
theorem claimC10_consistency (md : List GRClaim) (f : ℤ → Bool) :
    (gasRefundClaimsFold md f).1 =
      ((gasRefundClaimsFold md f).2.map (fun c => c.amount)).sum ∧
    ∀ cl ∈ (gasRefundClaimsFold md f).2, f cl.epoch = false := by
  exact gasRefundClaimsFold_inv f md (0, []) (by simp) (by simp)

/-! ## Claim C8: getSuccessfulSwaps -/

structure SwapData where
  txHash : String
  txOrigin : String
  initiator : String
  txGasPrice : ℕ
  blockNumber : ℕ
  timestamp : ℕ
deriving DecidableEq, Repr

def asciiLowerChar (ch : Char) : Char :=
  if ch.isUpper then Char.ofNat (ch.toNat + 32) else ch

def asciiLower (s : String) : String := String.mk (s.data.map asciiLowerChar)

/-- First-occurrence deduplication, the order-preserving reading of the
    JavaScript [...new Set(list)]. -/
def dedupFirst (l : List String) : List String :=
  l.foldl (fun acc x => if x ∈ acc then acc else acc ++ [x]) []

theorem dedupFold_length_le (l : List String) :
    ∀ acc : List String,
      (l.foldl (fun acc x => if x ∈ acc then acc else acc ++ [x]) acc).length ≤
        acc.length + l.length := by
  induction l with
  | nil => intro acc; simp
  | cons x xs ih =>
    intro acc
    simp only [List.foldl]
    by_cases hx : x ∈ acc
    · rw [if_pos hx]
      have := ih acc
      simp only [List.length_cons]
      omega
    · rw [if_neg hx]
      have := ih (acc ++ [x])
      simp only [List.length_append, List.length_cons, List.length_nil] at *
      omega

theorem dedupFold_length_iff (l : List String) :
    ∀ acc : List String,
      ((l.foldl (fun acc x => if x ∈ acc then acc else acc ++ [x]) acc).length =
        acc.length + l.length) ↔ (l.Nodup ∧ ∀ x ∈ l, x ∉ acc) := by
  induction l with
  | nil => intro acc; simp
  | cons x xs ih =>
    intro acc
    simp only [List.foldl]
    by_cases hx : x ∈ acc
    · rw [if_pos hx]
      constructor
      · intro h
        exfalso
        have := dedupFold_length_le xs acc
        simp only [List.length_cons] at h
        omega
      · rintro ⟨-, hall⟩
        exact absurd hx (hall x (List.mem_cons_self x xs))
    · rw [if_neg hx]
      have base := ih (acc ++ [x])
      simp only [List.length_append, List.length_cons, List.length_nil] at base ⊢
      constructor
      · intro h
        obtain ⟨hnd, hall⟩ := base.mp (by omega)
        have hxxs : x ∉ xs := by
          intro hmem
          have := hall x hmem
          simp [List.mem_append] at this
        refine ⟨List.nodup_cons.mpr ⟨hxxs, hnd⟩, ?_⟩
        intro y hy
        rcases List.mem_cons.mp hy with rfl | hy2
        · exact hx
        · have := hall y hy2
          simp [List.mem_append] at this
          exact this.1
      · rintro ⟨hnd, hall⟩
        obtain ⟨hxxs, hnd2⟩ := List.nodup_cons.mp hnd
        have : ((xs.foldl (fun acc x => if x ∈ acc then acc else acc ++ [x])
            (acc ++ [x])).length = acc.length + 1 + xs.length) := by
          apply base.mpr
          refine ⟨hnd2, ?_⟩
          intro y hy
          simp only [List.mem_append, List.mem_singleton]
          rintro (hyacc | rfl)
          · exact hall y (List.mem_cons_of_mem x hy) hyacc
          · exact hxxs hy
        omega

theorem dedupFirst_length_eq_iff (l : List String) :
    (dedupFirst l).length = l.length ↔ l.Nodup := by
  have := dedupFold_length_iff l []
  simp only [List.length_nil, Nat.zero_add] at this
  unfold dedupFirst
  rw [this]
  simp

inductive SwapsErr
  | duplicatesFound
deriving DecidableEq, Repr

def getSuccessfulSwaps (originCheckEpoch dedupEpoch epoch : ℤ)
    (swaps : List SwapData) : Except SwapsErr (List SwapData) :=
  if epoch < originCheckEpoch then .ok swaps
  else
    let filtered := swaps.filter (fun s => asciiLower s.initiator = asciiLower s.txOrigin)
    if epoch < dedupEpoch then .ok filtered
    else if (dedupFirst (filtered.map (fun s => s.txHash))).length = filtered.length then
      .ok filtered
    else .error .duplicatesFound

/-- Claim C8 (amended): the duplicates assertion fires iff the epoch is at
    or past both the tx-origin-check and deduplication start epochs and the
    origin-filtered swaps contain a duplicate txHash. -/
theorem claimC8_amended (oE dE e : ℤ) (swaps : List SwapData) :
    (e < oE → getSuccessfulSwaps oE dE e swaps = .ok swaps) ∧
    (oE ≤ e → e < dE → getSuccessfulSwaps oE dE e swaps =
      .ok (swaps.filter (fun s => asciiLower s.initiator = asciiLower s.txOrigin))) ∧
    (oE ≤ e → dE ≤ e →
      (getSuccessfulSwaps oE dE e swaps = .error .duplicatesFound ↔
        ¬ ((swaps.filter (fun s => asciiLower s.initiator = asciiLower s.txOrigin)).map
            (fun s => s.txHash)).Nodup)) := by
  refine ⟨?_, ?_, ?_⟩
  · intro h
    unfold getSuccessfulSwaps
    rw [if_pos h]
  · intro h1 h2
    unfold getSuccessfulSwaps
    rw [if_neg (not_lt.mpr h1), if_pos h2]
  · intro h1 h2
    unfold getSuccessfulSwaps
    rw [if_neg (not_lt.mpr h1), if_neg (not_lt.mpr h2)]
    set filtered := swaps.filter (fun s => asciiLower s.initiator = asciiLower s.txOrigin)
    have hiff := dedupFirst_length_eq_iff (filtered.map (fun s => s.txHash))
    rw [List.length_map] at hiff
    by_cases hnd : (filtered.map (fun s => s.txHash)).Nodup
    · rw [if_pos (hiff.mpr hnd)]
      simp [hnd]
    · rw [if_neg (fun hc => hnd (hiff.mp hc))]
      simp [hnd]

def swapDupA : SwapData :=
  { txHash := "0xt", txOrigin := "0xa", initiator := "0xb"
    txGasPrice := 1, blockNumber := 1, timestamp := 1 }

def swapDupB : SwapData :=
  { txHash := "0xt", txOrigin := "0xc", initiator := "0xd"
    txGasPrice := 1, blockNumber := 2, timestamp := 2 }

/-- Claim C8 (counterexample): two swaps of the fetched slice share a
    txHash, the epoch is past the dedup epoch, yet no error is raised
    because both are dropped by the initiator-equals-origin filter. -/
theorem claimC8_counterexample :
    swapDupA.txHash = swapDupB.txHash ∧
    getSuccessfulSwaps 12 12 12 [swapDupA, swapDupB] = .ok [] := by
  constructor <;> decide


/-! ## Claims C6 and C7: rounding in the refund formula and the epoch cap -/


theorem bnRound0_mono {a b : ℚ} (h : a ≤ b) : bnRound0 a ≤ bnRound0 b := by
  rw [bnRound0_eq, bnRound0_eq]
  rcases le_or_lt 0 a with ha | ha
  · have hb : 0 ≤ b := le_trans ha h
    rw [if_pos ha, if_pos hb]
    exact_mod_cast Int.floor_le_floor (by linarith)
  · rw [if_neg (not_le.mpr ha)]
    rcases le_or_lt 0 b with hb | hb
    · rw [if_pos hb]
      have h1 : (0 : ℤ) ≤ ⌊-a + 1/2⌋ := Int.floor_nonneg.mpr (by linarith)
      have h2 : (0 : ℤ) ≤ ⌊b + 1/2⌋ := Int.floor_nonneg.mpr (by linarith)
      exact_mod_cast (by omega : -⌊-a + 1/2⌋ ≤ ⌊b + 1/2⌋)
    · rw [if_neg (not_le.mpr hb)]
      have : ⌊-b + 1/2⌋ ≤ ⌊-a + 1/2⌋ := Int.floor_le_floor (by linarith)
      exact_mod_cast (by omega : -⌊-a + 1/2⌋ ≤ -⌊-b + 1/2⌋)

theorem bnDiv_mono {a b d : ℚ} (hd : 0 < d) (h : a ≤ b) : bnDiv a d ≤ bnDiv b d := by
  rw [bnDiv_eq, bnDiv_eq]
  have h1 : a / d ≤ b / d := by gcongr
  have h2 : a / d * 100000000000000000000 ≤ b / d * 100000000000000000000 := by
    exact mul_le_mul_of_nonneg_right h1 (by norm_num)
  have h3 := bnRound0_mono h2
  exact (div_le_div_iff_of_pos_right (by norm_num)).mpr h3

/-- The general (un-floored) refund formula of spec section 4.4, stated for
    comparison with the precision-glitch carve-out. -/
def computeAmountsGeneral (tx : Row) (percent : ℚ) : Amounts :=
  let raw := qMul (bnDiv tx.gasUsedChainCurrency tx.pspChainCurrency) percent
  { raw := raw
    usd := bnDiv (qMul raw tx.pspUsd) e18
    psp := bnRound0 raw }

/-- Claim C6 (amended): at the precision-glitch epoch the raw PSP amount is
    rounded half-up to an integer (bignumber decimalPlaces(0), not floor)
    before refundUSD is computed; the resulting refundUSD is at most the
    general value when rounding shrinks the raw amount, and at least the
    general value when rounding grows it (so it is not strictly smaller in
    general). -/
theorem claimC6_amended (c : Consts) (tx : Row) (percent : ℚ)
    (hg : tx.epoch = c.glitchEpoch) (hpsp : 0 ≤ tx.pspUsd) :
    (computeAmounts c tx percent).usd =
      bnDiv (qMul (bnRound0
        (qMul (bnDiv tx.gasUsedChainCurrency tx.pspChainCurrency) percent)) tx.pspUsd) e18 ∧
    (bnRound0 (qMul (bnDiv tx.gasUsedChainCurrency tx.pspChainCurrency) percent) ≤
        qMul (bnDiv tx.gasUsedChainCurrency tx.pspChainCurrency) percent →
      (computeAmounts c tx percent).usd ≤ (computeAmountsGeneral tx percent).usd) ∧
    (qMul (bnDiv tx.gasUsedChainCurrency tx.pspChainCurrency) percent ≤
        bnRound0 (qMul (bnDiv tx.gasUsedChainCurrency tx.pspChainCurrency) percent) →
      (computeAmountsGeneral tx percent).usd ≤ (computeAmounts c tx percent).usd) := by
  refine ⟨?_, ?_, ?_⟩
  · simp [computeAmounts, hg]
  · intro h
    simp only [computeAmounts, computeAmountsGeneral, hg, if_true, if_pos, qMul_eq] at h ⊢
    apply bnDiv_mono (by norm_num [e18])
    exact mul_le_mul_of_nonneg_right h hpsp
  · intro h
    simp only [computeAmounts, computeAmountsGeneral, hg, if_true, if_pos, qMul_eq] at h ⊢
    apply bnDiv_mono (by norm_num [e18])
    exact mul_le_mul_of_nonneg_right h hpsp

/-- A glitch-epoch row whose raw PSP amount is 2.5: gas cost 40 wei of
    chain currency at a PSP rate of 4, tier percentage one quarter. -/
def rowGlitch : Row :=
  { id := 1, epoch := 12, hash := "0xh1", address := "0xa", timestamp := 100
    status := .idle, totalStakeAmountPSP := 500000000000000000000
    gasUsedChainCurrency := 40, pspChainCurrency := 4
    pspUsd := 1000000000000000000
    refundedAmountUSD := 0, refundedAmountPSP := 0 }

/-- Claim C6 (counterexample): at the precision-glitch epoch a raw PSP
    amount of 2.5 is rounded up to 3, so the glitch-path refundUSD (3) is
    strictly larger than the general formula's value (2.5), not strictly
    smaller as the claim states. -/
theorem claimC6_counterexample :
    (computeAmounts cSample rowGlitch (mkRat 1 4)).usd = 3 ∧
    (computeAmountsGeneral rowGlitch (mkRat 1 4)).usd = mkRat 5 2 ∧
    ¬ ((computeAmounts cSample rowGlitch (mkRat 1 4)).usd <
       (computeAmountsGeneral rowGlitch (mkRat 1 4)).usd) := by
  refine ⟨by decide, by decide, by decide⟩

/-- Claim C6 witness: the amended claim at the concrete glitch row, where
    rounding grows the raw amount. -/
theorem claimC6_witness :
    (computeAmounts cSample rowGlitch (mkRat 1 4)).usd =
      bnDiv (qMul (bnRound0
        (qMul (bnDiv rowGlitch.gasUsedChainCurrency rowGlitch.pspChainCurrency)
          (mkRat 1 4))) rowGlitch.pspUsd) e18 ∧
    (bnRound0 (qMul (bnDiv rowGlitch.gasUsedChainCurrency rowGlitch.pspChainCurrency)
        (mkRat 1 4)) ≤
        qMul (bnDiv rowGlitch.gasUsedChainCurrency rowGlitch.pspChainCurrency) (mkRat 1 4) →
      (computeAmounts cSample rowGlitch (mkRat 1 4)).usd ≤
        (computeAmountsGeneral rowGlitch (mkRat 1 4)).usd) ∧
    (qMul (bnDiv rowGlitch.gasUsedChainCurrency rowGlitch.pspChainCurrency) (mkRat 1 4) ≤
        bnRound0 (qMul (bnDiv rowGlitch.gasUsedChainCurrency rowGlitch.pspChainCurrency)
          (mkRat 1 4)) →
      (computeAmountsGeneral rowGlitch (mkRat 1 4)).usd ≤
        (computeAmounts cSample rowGlitch (mkRat 1 4)).usd) :=
  claimC6_amended cSample rowGlitch (mkRat 1 4) (by decide) (by decide)

/-- Claim C7 (amended): the epoch-first capping path falls back to the
    yearly rule when the yearly budget would be exceeded; otherwise, when
    the epoch budget would be exceeded and the epoch guard has not tripped,
    it produces cappedUSD = MAX_USD_ADDRESS_EPOCH - epochSpent (which is
    non-negative) and cappedPSP as the half-up rounding of the 20-decimal
    division cappedUSD / pspUsd times 10^18 (bignumber decimalPlaces(0) of
    dividedBy, not a floor); otherwise neither amount is set. -/
theorem claimC7_amended (st : GuardianState) (a : String) (r pspUsd : ℚ) :
    (maxUSDAddressBudgetYearly < qAdd (st.yearlyUsd a) r →
      capRefundedAmountsBasedOnEpochDollarBudget st a r pspUsd =
        capRefundedAmountsBasedOnYearlyDollarBudget st a r pspUsd) ∧
    (¬ (maxUSDAddressBudgetYearly < qAdd (st.yearlyUsd a) r) →
      maxUSDAddressBudgetEpoch < qAdd (st.epochUsd a) r →
      ¬ st.hasSpentUSDBudgetForEpoch a →
      0 ≤ qSub maxUSDAddressBudgetEpoch (st.epochUsd a) ∧
      capRefundedAmountsBasedOnEpochDollarBudget st a r pspUsd =
        .ok ⟨some (qSub maxUSDAddressBudgetEpoch (st.epochUsd a)),
             some (bnRound0 (qMul
               (bnDiv (qSub maxUSDAddressBudgetEpoch (st.epochUsd a)) pspUsd) e18))⟩) ∧
    (¬ (maxUSDAddressBudgetYearly < qAdd (st.yearlyUsd a) r) →
      ¬ (maxUSDAddressBudgetEpoch < qAdd (st.epochUsd a) r) →
      capRefundedAmountsBasedOnEpochDollarBudget st a r pspUsd = .ok ⟨none, none⟩) := by
  refine ⟨?_, ?_, ?_⟩
  · intro h
    unfold capRefundedAmountsBasedOnEpochDollarBudget
    rw [if_pos h]
  · intro h1 h2 h3
    have hnn : 0 ≤ qSub maxUSDAddressBudgetEpoch (st.epochUsd a) := by
      rw [qSub_eq]
      unfold GuardianState.hasSpentUSDBudgetForEpoch at h3
      push_neg at h3
      linarith
    refine ⟨hnn, ?_⟩
    unfold capRefundedAmountsBasedOnEpochDollarBudget
    rw [if_neg h1, if_pos h2, if_pos hnn]
  · intro h1 h2
    unfold capRefundedAmountsBasedOnEpochDollarBudget
    rw [if_neg h1, if_neg h2]

/-- The guardian state of scenario S2 style: 1153 USD already refunded to
    the address this epoch (the epoch budget is 30000/26, about 1153.846). -/
def stEpoch : GuardianState := ⟨0, fun _ => 0, fun _ => 1153⟩

/-- Claim C7 (counterexample): with 1153 USD spent this epoch and pspUsd 1,
    the code's cappedPSP is the half-up rounding 846153846153846154 of
    (30000/26 - 1153) times 10^18, while the floor the claim states is
    846153846153846153: the two differ. -/
theorem claimC7_counterexample :
    capRefundedAmountsBasedOnEpochDollarBudget stEpoch "0xa" 5 1 =
      .ok ⟨some (qSub maxUSDAddressBudgetEpoch 1153),
           some 846153846153846154⟩ ∧
    Rat.floor (qMul (qDiv (qSub maxUSDAddressBudgetEpoch 1153) 1) e18) =
      846153846153846153 ∧
    ((846153846153846154 : ℚ) ≠ ((846153846153846153 : ℤ) : ℚ)) := by
  refine ⟨by decide, by decide, by decide⟩

/-- Claim C7 witness: the amended claim at the S2-style concrete state. -/
theorem claimC7_witness :
    (maxUSDAddressBudgetYearly < qAdd (stEpoch.yearlyUsd "0xa") 5 →
      capRefundedAmountsBasedOnEpochDollarBudget stEpoch "0xa" 5 1 =
        capRefundedAmountsBasedOnYearlyDollarBudget stEpoch "0xa" 5 1) ∧
    (¬ (maxUSDAddressBudgetYearly < qAdd (stEpoch.yearlyUsd "0xa") 5) →
      maxUSDAddressBudgetEpoch < qAdd (stEpoch.epochUsd "0xa") 5 →
      ¬ stEpoch.hasSpentUSDBudgetForEpoch "0xa" →
      0 ≤ qSub maxUSDAddressBudgetEpoch (stEpoch.epochUsd "0xa") ∧
      capRefundedAmountsBasedOnEpochDollarBudget stEpoch "0xa" 5 1 =
        .ok ⟨some (qSub maxUSDAddressBudgetEpoch (stEpoch.epochUsd "0xa")),
             some (bnRound0 (qMul
               (bnDiv (qSub maxUSDAddressBudgetEpoch (stEpoch.epochUsd "0xa")) 1) e18))⟩) ∧
    (¬ (maxUSDAddressBudgetYearly < qAdd (stEpoch.yearlyUsd "0xa") 5) →
      ¬ (maxUSDAddressBudgetEpoch < qAdd (stEpoch.epochUsd "0xa") 5) →
      capRefundedAmountsBasedOnEpochDollarBudget stEpoch "0xa" 5 1 = .ok ⟨none, none⟩) :=
  claimC7_amended stEpoch "0xa" 5 1



/-! ## Keccak-256 -/

def u64Mask : ℕ := 18446744073709551615

def rotl64 (x n : ℕ) : ℕ :=
  (((x <<< n) &&& u64Mask) ||| (x >>> (64 - n)))

def keccakRC : List ℕ :=
  [1, 32898, 9223372036854808714, 9223372039002292224] ++
  [32907, 2147483649, 9223372039002292353, 9223372036854808585] ++
  [138, 136, 2147516425, 2147483658] ++
  [2147516555, 9223372036854775947, 9223372036854808713, 9223372036854808579] ++
  [9223372036854808578, 9223372036854775936, 32778, 9223372039002259466] ++
  [9223372039002292353, 9223372036854808704, 2147483649, 9223372039002292232]

def keccakRotOff : List ℕ :=
  [0, 1, 62, 28, 27] ++
  [36, 44, 6, 55, 20] ++
  [3, 10, 43, 25, 39] ++
  [41, 45, 15, 21, 8] ++
  [18, 2, 61, 56, 14]

def keccakTheta (s : List ℕ) : List ℕ :=
  let col := fun x => s.getD x 0 ^^^ s.getD (x+5) 0 ^^^ s.getD (x+10) 0 ^^^
    s.getD (x+15) 0 ^^^ s.getD (x+20) 0
  let d := fun x => col ((x+4) % 5) ^^^ rotl64 (col ((x+1) % 5)) 1
  (List.range 25).map (fun j => s.getD j 0 ^^^ d (j % 5))

def keccakRhoPi (s : List ℕ) : List ℕ :=
  (List.range 25).map (fun j =>
    let y := j % 5
    let x := (3 * (j / 5) + y) % 5
    rotl64 (s.getD (x + 5 * y) 0) (keccakRotOff.getD (x + 5 * y) 0))

def keccakChi (s : List ℕ) : List ℕ :=
  (List.range 25).map (fun j =>
    let x := j % 5
    let y := j / 5
    s.getD j 0 ^^^ ((u64Mask ^^^ s.getD ((x+1) % 5 + 5*y) 0) &&& s.getD ((x+2) % 5 + 5*y) 0))

def keccakRound (s : List ℕ) (rc : ℕ) : List ℕ :=
  let s3 := keccakChi (keccakRhoPi (keccakTheta s))
  (s3.getD 0 0 ^^^ rc) :: s3.drop 1

def keccakF (s : List ℕ) : List ℕ :=
  keccakRC.foldl keccakRound s

/-- Eight bytes little-endian to one 64-bit lane. -/
def laneOfBytes (bs : List ℕ) : ℕ :=
  bs.foldr (fun b acc => b + 256 * acc) 0

def blockLanes (bytes : List ℕ) : List ℕ :=
  (List.range 17).map (fun j => laneOfBytes ((bytes.drop (8 * j)).take 8))

def xorBlock (s : List ℕ) (bytes : List ℕ) : List ℕ :=
  let lanes := blockLanes bytes
  (List.range 25).map (fun j => if j < 17 then s.getD j 0 ^^^ lanes.getD j 0 else s.getD j 0)

def keccakAbsorb : ℕ → List ℕ → List ℕ → List ℕ
  | 0, s, _ => s
  | fuel + 1, s, bytes =>
    if bytes.isEmpty then s
    else keccakAbsorb fuel (keccakF (xorBlock s (bytes.take 136))) (bytes.drop 136)

/-- Multi-rate padding of keccak (0x01 domain byte, 0x80 final bit). -/
def keccakPad (msg : List ℕ) : List ℕ :=
  let padlen := 136 - msg.length % 136
  if padlen = 1 then msg ++ [0x81]
  else msg ++ [0x01] ++ List.replicate (padlen - 2) 0 ++ [0x80]

def laneToBytes (lane : ℕ) : List ℕ :=
  (List.range 8).map (fun k => (lane >>> (8 * k)) % 256)

/-- keccak256 of a byte list (the pre-standard Keccak padding that Ethereum
    uses), producing the 32 output bytes. -/
def keccak256 (msg : List ℕ) : List ℕ :=
  let padded := keccakPad msg
  let final := keccakAbsorb (padded.length + 1) (List.replicate 25 0) padded
  laneToBytes (final.getD 0 0) ++ laneToBytes (final.getD 1 0) ++
    laneToBytes (final.getD 2 0) ++ laneToBytes (final.getD 3 0)

/-- Keccak-256 of the empty input, the well-known test vector
    c5d2460186f7233c927e7db2dcc703c0e500b653ca82273b7bfad8045d85a470. -/
theorem keccak256_empty_vector :
    keccak256 [] =
      [0xc5, 0xd2, 0x46, 0x01, 0x86, 0xf7, 0x23, 0x3c,
       0x92, 0x7e, 0x7d, 0xb2, 0xdc, 0xc7, 0x03, 0xc0,
       0xe5, 0x00, 0xb6, 0x53, 0xca, 0x82, 0x27, 0x3b,
       0x7b, 0xfa, 0xd8, 0x04, 0x5d, 0x85, 0xa4, 0x70] := by
  decide

/-- Keccak-256 of the ASCII bytes of "abc", the test vector
    4e03657aea45a94fc7d47ba826c8d667c0d1e6e33a64a036ec44f58fa12d6c45. -/
theorem keccak256_abc_vector :
    keccak256 [0x61, 0x62, 0x63] =
      [0x4e, 0x03, 0x65, 0x7a, 0xea, 0x45, 0xa9, 0x4f,
       0xc7, 0xd4, 0x7b, 0xa8, 0x26, 0xc8, 0xd6, 0x67,
       0xc0, 0xd1, 0xe6, 0xe3, 0x3a, 0x64, 0xa0, 0x36,
       0xec, 0x44, 0xf5, 0x8f, 0xa1, 0x2d, 0x6c, 0x45] := by
  decide



/-! ## ethers arrayify and the merkle leaf -/

/-- Value of one hex character, as ethers accepts them (0-9, a-f, A-F). -/
def hexVal (c : Char) : Option ℕ :=
  if '0' ≤ c ∧ c ≤ '9' then some (c.toNat - 48)
  else if 'a' ≤ c ∧ c ≤ 'f' then some (c.toNat - 87)
  else if 'A' ≤ c ∧ c ≤ 'F' then some (c.toNat - 55)
  else none

/-- Decode pairs of hex characters into bytes; fails on an odd-length
    tail or a non-hex character, as ethers.utils.arrayify does. -/
def hexPairsToBytes : List Char → Option (List ℕ)
  | [] => some []
  | [_] => none
  | c1 :: c2 :: rest => do
    let h ← hexVal c1
    let l ← hexVal c2
    let tail ← hexPairsToBytes rest
    pure ((16 * h + l) :: tail)

/-- ethers.utils.arrayify on a string: requires the 0x prefix, then
    hex-decodes the rest. -/
def arrayify (s : String) : Option (List ℕ) :=
  match s.data with
  | '0' :: 'x' :: rest => hexPairsToBytes rest
  | _ => none

/-- The leaf hash of computeMerkleData (merkle-tree.ts):
    utils.keccak256(address + amount), where + is string concatenation
    and keccak256 arrayifies its string argument before hashing. -/
def merkleLeafHash (address amount : String) : Option (List ℕ) :=
  (arrayify (address ++ amount)).map keccak256

/-- The leaf hash in the words of the claim: keccak256 of the 20 address
    bytes followed by the ASCII bytes of the decimal amount string. -/
def specLeafHash (addressBytes : List ℕ) (amount : String) : List ℕ :=
  keccak256 (addressBytes ++ amount.data.map Char.toNat)

def hexDigitChar (n : ℕ) : Char :=
  if n < 10 then Char.ofNat (48 + n) else Char.ofNat (87 + n)

def hexChars (bs : List ℕ) : List Char :=
  bs.foldr (fun b acc => hexDigitChar (b / 16) :: hexDigitChar (b % 16) :: acc) []

/-- Lowercase 0x-prefixed hex rendering of a byte list. -/
def hexOfBytes (bs : List ℕ) : String :=
  String.mk ('0' :: 'x' :: hexChars bs)

theorem hexVal_hexDigitChar : ∀ n < 16, hexVal (hexDigitChar n) = some n := by decide

theorem hexPairs_hexChars_append (bs : List ℕ) (h : ∀ b ∈ bs, b < 256) (rest : List Char) :
    hexPairsToBytes (hexChars bs ++ rest) =
      (hexPairsToBytes rest).map (fun t => bs ++ t) := by
  induction bs with
  | nil =>
    show hexPairsToBytes rest = _
    cases hexPairsToBytes rest <;> simp
  | cons b tl ih =>
    have hb : b < 256 := h b (List.mem_cons_self b tl)
    have htl : ∀ x ∈ tl, x < 256 := fun x hx => h x (List.mem_cons_of_mem b hx)
    show hexPairsToBytes (hexDigitChar (b / 16) :: hexDigitChar (b % 16) :: (hexChars tl ++ rest)) = _
    rw [hexPairsToBytes]
    rw [hexVal_hexDigitChar (b / 16) (by omega), hexVal_hexDigitChar (b % 16) (by omega)]
    rw [ih htl]
    have hbb : 16 * (b / 16) + b % 16 = b := by omega
    cases hexPairsToBytes rest <;> simp [hbb, Option.bind]

theorem hexPairs_even_odd : ∀ (l : List Char), (∀ c ∈ l, (hexVal c).isSome) →
    (l.length % 2 = 0 → (hexPairsToBytes l).isSome) ∧
    (l.length % 2 = 1 → hexPairsToBytes l = none)
  | [], _ => by constructor <;> intro hlen <;> simp_all [hexPairsToBytes]
  | [c], _ => by constructor <;> intro hlen <;> simp_all [hexPairsToBytes]
  | c1 :: c2 :: rest, h => by
    have h1 : (hexVal c1).isSome := h c1 (by simp)
    have h2 : (hexVal c2).isSome := h c2 (by simp)
    have hr := hexPairs_even_odd rest (fun c hc => h c (by simp [hc]))
    obtain ⟨v1, hv1⟩ := Option.isSome_iff_exists.mp h1
    obtain ⟨v2, hv2⟩ := Option.isSome_iff_exists.mp h2
    constructor <;> intro hlen
    · have : rest.length % 2 = 0 := by simp at hlen; omega
      obtain ⟨t, ht⟩ := Option.isSome_iff_exists.mp (hr.1 this)
      rw [hexPairsToBytes, hv1, hv2, ht]; rfl
    · have : rest.length % 2 = 1 := by simp at hlen; omega
      rw [hexPairsToBytes, hv1, hv2, hr.2 this]; rfl



/-- C9 (amended): the merkle leaf actually hashes the hex-DECODING of the
    decimal amount digits appended to the address bytes, and throws when
    the amount has an odd number of digits. -/
theorem claimC9_amended (addrBytes : List ℕ) (amount : String)
    (haddr : ∀ b ∈ addrBytes, b < 256)
    (hdec : ∀ c ∈ amount.data, '0' ≤ c ∧ c ≤ '9') :
    (amount.data.length % 2 = 0 →
      ∃ amtBytes, hexPairsToBytes amount.data = some amtBytes ∧
        merkleLeafHash (hexOfBytes addrBytes) amount =
          some (keccak256 (addrBytes ++ amtBytes))) ∧
    (amount.data.length % 2 = 1 →
      merkleLeafHash (hexOfBytes addrBytes) amount = none) := by
  have hhex : ∀ c ∈ amount.data, (hexVal c).isSome := by
    intro c hc
    have h9 := hdec c hc
    unfold hexVal
    rw [if_pos h9]
    rfl
  have hdata : (hexOfBytes addrBytes ++ amount).data =
      '0' :: 'x' :: (hexChars addrBytes ++ amount.data) := by
    cases amount with
    | mk d => rfl
  have harr : arrayify (hexOfBytes addrBytes ++ amount) =
      hexPairsToBytes (hexChars addrBytes ++ amount.data) := by
    unfold arrayify
    rw [hdata]
    rfl
  constructor
  · intro heven
    obtain ⟨t, ht⟩ :=
      Option.isSome_iff_exists.mp ((hexPairs_even_odd amount.data hhex).1 heven)
    refine ⟨t, ht, ?_⟩
    unfold merkleLeafHash
    rw [harr, hexPairs_hexChars_append addrBytes haddr, ht]
    rfl
  · intro hodd
    unfold merkleLeafHash
    rw [harr, hexPairs_hexChars_append addrBytes haddr,
      (hexPairs_even_odd amount.data hhex).2 hodd]
    rfl

/-- C9 witness: instantiating the amended C9 theorem at the one-byte address 0xab and amount string 25. -/
theorem claimC9_witness :
    (("25" : String).data.length % 2 = 0 →
      ∃ amtBytes, hexPairsToBytes ("25" : String).data = some amtBytes ∧
        merkleLeafHash (hexOfBytes [171]) "25" =
          some (keccak256 ([171] ++ amtBytes))) ∧
    (("25" : String).data.length % 2 = 1 →
      merkleLeafHash (hexOfBytes [171]) "25" = none) :=
  claimC9_amended [171] "25" (by decide) (by decide)

/-- C9 counterexample: for a 20-byte address and amount string 25, the code hex-decodes the two decimal digits into the single byte 0x25 rather than appending their ASCII bytes 0x32 0x35, so the leaf differs from the claimed keccak256(address with ASCII amount). -/
theorem claimC9_counterexample :
    merkleLeafHash "0xaaaaaaaaaaaaaaaaaaaaaaaaaaaaaaaaaaaaaaaa" "25" ≠
      some (specLeafHash (List.replicate 20 0xaa) "25") ∧
    merkleLeafHash "0xaaaaaaaaaaaaaaaaaaaaaaaaaaaaaaaaaaaaaaaa" "25" =
      some (keccak256 (List.replicate 20 0xaa ++ [0x25])) := by
  decide


/-! ## Claim C5 development -/

/-- Year block membership: epoch e lies in the y-th block of 26 epochs
    counted from the genesis epoch. -/
def inYear (c : Consts) (y e : ℤ) : Bool :=
  (c.genesisEpoch + 26 * y ≤ e) && (e < c.genesisEpoch + 26 * (y + 1))

/-- Does a row count toward the (address, year) USD sum: it is VALIDATED,
    belongs to the address and its epoch lies in the year block. -/
def rowCounts (c : Consts) (a : String) (y : ℤ) (r : Row) : Bool :=
  r.status = TxStatus.validated && r.address = a && inYear c y r.epoch

/-- Sum of refundedAmountUSD over an address's VALIDATED rows within one
    year block. -/
def yearUSDSum (c : Consts) (db : List Row) (a : String) (y : ℤ) : ℚ :=
  qSum ((db.filter (rowCounts c a y)).map (fun r => r.refundedAmountUSD))

/-- A row validated before the pass whose stored USD already exceeds the
    yearly budget. -/
def rowOverBudget : Row :=
  { id := 1, epoch := 9, hash := "0xh1", address := "0xa", timestamp := 100
    status := .validated, totalStakeAmountPSP := 500000000000000000000
    gasUsedChainCurrency := 0, pspChainCurrency := 1, pspUsd := 1
    refundedAmountUSD := 40000, refundedAmountPSP := 0 }

/-- C5 counterexample: a single row validated in an earlier pass with a
    stored refundedAmountUSD of 40,000 makes the scan start past its epoch,
    so the pass completes without touching it and the yearly sum for its
    address stays above the 30,000 budget. -/
theorem claimC5_counterexample :
    validateTransactions cSample [rowOverBudget] = .ok [rowOverBudget] ∧
    ¬ (yearUSDSum cSample [rowOverBudget] "0xa" 0 ≤ maxUSDAddressBudgetYearly) := by
  decide

/-- Every row carrying a non-IDLE status sits strictly below the start
    epoch of the scan, for a positive genesis epoch. -/
theorem nonIdle_lt_start (c : Consts) (db : List Row) (h0 : 0 < c.genesisEpoch) :
    ∀ r ∈ db, r.status ≠ .idle →
      r.epoch < startEpochFor c (fetchLastEpochRefunded db) := by
  intro r hr hrs
  obtain ⟨M, hM, hall⟩ := fetchLast_spec db r hr hrs
  rw [hM]
  have hle : r.epoch ≤ M := hall r hr hrs
  show r.epoch < (if M = 0 then c.genesisEpoch else M + 1)
  by_cases hM0 : M = 0
  · rw [if_pos hM0]; omega
  · rw [if_neg hM0]; omega

theorem insertRow_perm (r : Row) (l : List Row) : (insertRow r l).Perm (r :: l) := by
  induction l with
  | nil => exact List.Perm.refl _
  | cons x xs ih =>
    unfold insertRow
    by_cases h : rowLE x r
    · rw [if_pos h]
      exact (ih.cons x).trans (List.Perm.swap r x xs)
    · rw [if_neg h]

theorem sortRows_perm (l : List Row) : (sortRows l).Perm l := by
  suffices h : ∀ acc, ((l.foldl (fun acc r => insertRow r acc) acc).Perm (acc ++ l)) by
    simpa using h []
  induction l with
  | nil => intro acc; simp
  | cons x xs ih =>
    intro acc
    simp only [List.foldl]
    refine (ih (insertRow x acc)).trans ?_
    refine ((insertRow_perm x acc).append_right xs).trans ?_
    simp only [List.cons_append]
    exact List.perm_middle.symm

/-- Membership in the canonical scan. -/
theorem mem_scanOf (db : List Row) (s : ℤ) (r : Row) :
    r ∈ scanOf db s ↔ r ∈ db ∧ s ≤ r.epoch := by
  unfold scanOf
  rw [(sortRows_perm _).mem_iff, List.mem_filter]
  simp

/-- The scan's ids are distinct when the table's are. -/
theorem scanOf_nodup_ids (db : List Row) (s : ℤ)
    (h : (db.map (fun r => r.id)).Nodup) :
    ((scanOf db s).map (fun r => r.id)).Nodup := by
  have hperm : ((scanOf db s).map (fun r => r.id)).Perm
      ((db.filter (fun r => s ≤ r.epoch)).map (fun r => r.id)) :=
    (sortRows_perm _).map _
  rw [hperm.nodup_iff]
  exact ((List.filter_sublist db).map _).nodup h

theorem yearUSDSum_nil (c : Consts) (a : String) (y : ℤ) :
    yearUSDSum c [] a y = 0 := rfl

theorem yearUSDSum_cons (c : Consts) (x : Row) (l : List Row) (a : String) (y : ℤ) :
    yearUSDSum c (x :: l) a y =
      (if rowCounts c a y x then x.refundedAmountUSD else 0) + yearUSDSum c l a y := by
  unfold yearUSDSum
  rw [qSum_eq, qSum_eq, List.filter_cons]
  by_cases h : rowCounts c a y x
  · rw [if_pos h, if_pos h, List.map_cons, List.sum_cons]
  · rw [if_neg h, if_neg h, zero_add]

theorem yearUSDSum_append (c : Consts) (l1 l2 : List Row) (a : String) (y : ℤ) :
    yearUSDSum c (l1 ++ l2) a y = yearUSDSum c l1 a y + yearUSDSum c l2 a y := by
  unfold yearUSDSum
  rw [qSum_eq, qSum_eq, qSum_eq, List.filter_append, List.map_append, List.sum_append]

theorem yearUSDSum_singleton (c : Consts) (u : Row) (a : String) (y : ℤ) :
    yearUSDSum c [u] a y =
      (if rowCounts c a y u then u.refundedAmountUSD else 0) := by
  rw [yearUSDSum_cons, yearUSDSum_nil, add_zero]

theorem rowCounts_iff (c : Consts) (a : String) (y : ℤ) (r : Row) :
    rowCounts c a y r = true ↔
      (r.status = TxStatus.validated ∧ r.address = a ∧ inYear c y r.epoch = true) := by
  unfold rowCounts
  simp [Bool.and_eq_true, and_assoc]

theorem yearUSDSum_eq_zero (c : Consts) (l : List Row) (a : String) (y : ℤ)
    (h : ∀ r ∈ l, ¬ (r.status = TxStatus.validated ∧ r.address = a ∧
        inYear c y r.epoch = true)) :
    yearUSDSum c l a y = 0 := by
  unfold yearUSDSum
  have hfil : l.filter (rowCounts c a y) = [] := by
    rw [List.filter_eq_nil_iff]
    intro r hr
    intro hc
    exact h r hr ((rowCounts_iff c a y r).mp hc)
  rw [hfil]
  rfl

theorem filter_sublist_of_imp {α : Type} (l : List α) (p q : α → Bool)
    (h : ∀ x ∈ l, p x = true → q x = true) : List.Sublist (l.filter p) (l.filter q) := by
  induction l with
  | nil => simp
  | cons x xs ih =>
    rw [List.filter_cons, List.filter_cons]
    have ht := fun z hz => h z (List.mem_cons_of_mem x hz)
    by_cases hp : p x = true
    · rw [if_pos hp, if_pos (h x (List.mem_cons_self x xs) hp)]
      exact (ih ht).cons₂ x
    · rw [if_neg hp]
      by_cases hq : q x = true
      · rw [if_pos hq]; exact (ih ht).cons x
      · rw [if_neg hq]; exact ih ht

/-- At the start of a pass the per-year sums sit below the loaded guardian
    counter: the load sums every validated row of the address and each
    validated row lies below the start epoch. -/
theorem yearUSDSum_le_load (c : Consts) (db : List Row) (s : ℤ) (a : String) (y : ℤ)
    (hlt : ∀ r ∈ db, r.status ≠ .idle → r.epoch < s)
    (hnn : ∀ r ∈ db, 0 ≤ r.refundedAmountUSD) :
    yearUSDSum c db a y ≤ (loadStateFromDB db s).yearlyUsd a := by
  have hload : (loadStateFromDB db s).yearlyUsd a =
      qSum ((db.filter (fun r =>
        r.status = TxStatus.validated && r.epoch < s && r.address = a)).map
        (fun r => r.refundedAmountUSD)) := rfl
  rw [hload]
  unfold yearUSDSum
  rw [qSum_eq, qSum_eq]
  apply List.Sublist.sum_le_sum
  · apply List.Sublist.map
    apply filter_sublist_of_imp
    intro r hr hp
    rw [rowCounts_iff] at hp
    simp only [Bool.and_eq_true, decide_eq_true_eq]
    refine ⟨⟨hp.1, ?_⟩, hp.2.1⟩
    apply hlt r hr
    rw [hp.1]
    intro hcontra
    exact absurd hcontra (by decide)
  · intro x hx
    rw [List.mem_map] at hx
    obtain ⟨r, hr, rfl⟩ := hx
    exact hnn r (List.mem_filter.mp hr).1

theorem yearlyUsd_incEpoch (st : GuardianState) (a : String) (v : ℚ) :
    (st.increaseRefundedUSDForEpoch a v).yearlyUsd = st.yearlyUsd := rfl

theorem yearlyUsd_incPSP (st : GuardianState) (v : ℚ) :
    (st.increaseTotalRefundedPSP v).yearlyUsd = st.yearlyUsd := rfl

theorem yearlyUsd_incYearly (st : GuardianState) (a : String) (v : ℚ) (b : String) :
    (st.increaseYearlyRefundedUSD a v).yearlyUsd b =
      if b = a then qAdd (st.yearlyUsd a) v else st.yearlyUsd b := rfl

/-- All possible successful outcomes of the yearly-dollar capping helper. -/
theorem capYearly_ok (st : GuardianState) (a : String) (usd pspUsd : ℚ) (out : Capped)
    (h : capRefundedAmountsBasedOnYearlyDollarBudget st a usd pspUsd = .ok out) :
    (out = ⟨none, none⟩ ∧ qAdd (st.yearlyUsd a) usd ≤ maxUSDAddressBudgetYearly) ∨
    (∃ pv, out = ⟨some (qSub maxUSDAddressBudgetYearly (st.yearlyUsd a)), some pv⟩ ∧
      0 ≤ qSub maxUSDAddressBudgetYearly (st.yearlyUsd a) ∧
      maxUSDAddressBudgetYearly < qAdd (st.yearlyUsd a) usd) := by
  unfold capRefundedAmountsBasedOnYearlyDollarBudget at h
  simp only [] at h
  split_ifs at h with h1 h2
  · right
    exact ⟨_, (Except.ok.inj h).symm, h2, h1⟩
  · left
    exact ⟨(Except.ok.inj h).symm, not_lt.mp h1⟩

/-- All possible successful outcomes of the epoch-dollar capping helper. -/
theorem capEpoch_ok (st : GuardianState) (a : String) (usd pspUsd : ℚ) (out : Capped)
    (h : capRefundedAmountsBasedOnEpochDollarBudget st a usd pspUsd = .ok out) :
    (out = ⟨none, none⟩ ∧ qAdd (st.yearlyUsd a) usd ≤ maxUSDAddressBudgetYearly) ∨
    (∃ pv, out = ⟨some (qSub maxUSDAddressBudgetYearly (st.yearlyUsd a)), some pv⟩ ∧
      0 ≤ qSub maxUSDAddressBudgetYearly (st.yearlyUsd a) ∧
      maxUSDAddressBudgetYearly < qAdd (st.yearlyUsd a) usd) ∨
    (∃ pv, out = ⟨some (qSub maxUSDAddressBudgetEpoch (st.epochUsd a)), some pv⟩ ∧
      0 ≤ qSub maxUSDAddressBudgetEpoch (st.epochUsd a) ∧
      qAdd (st.yearlyUsd a) usd ≤ maxUSDAddressBudgetYearly ∧
      maxUSDAddressBudgetEpoch < qAdd (st.epochUsd a) usd) := by
  unfold capRefundedAmountsBasedOnEpochDollarBudget at h
  simp only [] at h
  split_ifs at h with h1 h2 h3
  · rcases capYearly_ok st a usd pspUsd out h with ⟨ho, hle⟩ | ⟨pv, ho, hnn, hover⟩
    · exact absurd h1 (not_lt.mpr hle)
    · right; left; exact ⟨pv, ho, hnn, hover⟩
  · right; right
    exact ⟨_, (Except.ok.inj h).symm, h3, not_lt.mp h1, h2⟩
  · left
    exact ⟨(Except.ok.inj h).symm, not_lt.mp h1⟩

/-- The epoch-change cleanup at the head of the for-loop body. -/
def cleanFor (c : Consts) (st : GuardianState) (prev e : ℤ) : GuardianState :=
  if prev ≠ e then
    let st1 := st.cleanEpochBudgetState
    if (e - c.genesisEpoch) % totalEpochsInYear = 0 then
      st1.cleanYearlyBudgetState
    else st1
  else st

/-- Processing a transaction first applies the epoch-change cleanup, after
    which the previous epoch marker matches the row's epoch. -/
theorem processTx_clean (c : Consts) (st : GuardianState) (prev : ℤ)
    (ups : List Row) (tx : Row) :
    processTx c st prev ups tx =
      processTx c (cleanFor c st prev tx.epoch) tx.epoch ups tx := by
  unfold processTx cleanFor
  simp

theorem exceptBind_eq_ok {α β : Type} (x : Except Err α) (f : α → Except Err β) (b : β)
    (h : (x >>= f) = .ok b) : ∃ a, x = .ok a ∧ f a = .ok b := by
  cases x with
  | error e =>
    have hred : (Except.error e >>= f : Except Err β) = Except.error e := rfl
    rw [hred] at h
    exact absurd h (by simp)
  | ok a =>
    rw [exceptBind_ok] at h
    exact ⟨a, rfl, h⟩

/-- The tail of the for-loop body after the dollar-capping helpers have
    produced caps: global PSP capping, guardian commits, the both-or-neither
    assertion and the conditional staging. -/
theorem processTx_posttail (c : Consts) (st : GuardianState) (ups : List Row)
    (tx : Row) (p : ℚ) (caps : Capped) (st' : GuardianState) (ups' : List Row)
    (hp : getRefundPercent tx.totalStakeAmountPSP = some p)
    (hF1 : caps.usd.getD (computeAmounts c tx p).usd ≤ (computeAmounts c tx p).usd)
    (hF2 : qAdd (st.yearlyUsd tx.address) (caps.usd.getD (computeAmounts c tx p).usd) ≤
      maxUSDAddressBudgetYearly)
    (hF3 : 0 ≤ caps.usd.getD (computeAmounts c tx p).usd ∨ caps.usd = none)
    (h : (do
      let cPSP ← capRefundedPSPAmountBasedOnPSPBudget st caps.psp
        (computeAmounts c tx p).psp
      let st1 :=
        if c.budgetLimitEpoch ≤ tx.epoch then
          st.increaseRefundedUSDForEpoch tx.address
            (caps.usd.getD (computeAmounts c tx p).usd)
        else st
      let st2 := st1.increaseYearlyRefundedUSD tx.address
        (caps.usd.getD (computeAmounts c tx p).usd)
      let st3 := st2.increaseTotalRefundedPSP (cPSP.getD (computeAmounts c tx p).psp)
      if cPSP.isSome = caps.usd.isSome then
        if tx.status ≠ TxStatus.validated ∨ cPSP.isSome then
          Except.ok (st3, ups ++ [{ tx with
            status := TxStatus.validated
            refundedAmountPSP :=
              match cPSP with
              | some q => bnRound0 q
              | none => tx.refundedAmountPSP
            refundedAmountUSD :=
              match caps.usd with
              | some u => u
              | none => tx.refundedAmountUSD }])
        else Except.ok (st3, ups)
      else Except.error Err.xnorAssert) = .ok (st', ups')) :
    ∃ w, w ≤ (computeAmounts c tx p).usd ∧
      qAdd (st.yearlyUsd tx.address) w ≤ maxUSDAddressBudgetYearly ∧
      (0 ≤ w ∨ w = (computeAmounts c tx p).usd) ∧
      (∀ b, st'.yearlyUsd b =
        if b = tx.address then qAdd (st.yearlyUsd tx.address) w else st.yearlyUsd b) ∧
      (ups' = ups ∨ ∃ pv v, ups' = ups ++ [{ tx with
          status := TxStatus.validated
          refundedAmountPSP := pv
          refundedAmountUSD := v }] ∧
        (v = w ∨ (v = tx.refundedAmountUSD ∧ w = (computeAmounts c tx p).usd))) := by
  have hF3' : 0 ≤ caps.usd.getD (computeAmounts c tx p).usd ∨
      caps.usd.getD (computeAmounts c tx p).usd = (computeAmounts c tx p).usd := by
    rcases hF3 with h3 | h3
    · exact .inl h3
    · rw [h3]; exact .inr rfl
  obtain ⟨cPSP, hpsp, h3⟩ := exceptBind_eq_ok _ _ _ h
  simp only [] at h3
  have hst1 : (if c.budgetLimitEpoch ≤ tx.epoch then
      st.increaseRefundedUSDForEpoch tx.address
        (caps.usd.getD (computeAmounts c tx p).usd)
    else st).yearlyUsd = st.yearlyUsd := by
    split_ifs <;> rfl
  by_cases hx : cPSP.isSome = caps.usd.isSome
  · rw [if_pos hx] at h3
    by_cases hpush : tx.status ≠ TxStatus.validated ∨ cPSP.isSome = true
    · rw [if_pos hpush] at h3
      have hinj := Except.ok.inj h3
      rw [Prod.mk.injEq] at hinj
      obtain ⟨hst, hups⟩ := hinj
      refine ⟨caps.usd.getD (computeAmounts c tx p).usd, hF1, hF2, hF3', ?_, ?_⟩
      · intro b
        rw [← hst]
        show ((_ : GuardianState).increaseTotalRefundedPSP _).yearlyUsd b = _
        rw [yearlyUsd_incPSP, yearlyUsd_incYearly, hst1]
      · right
        refine ⟨_, _, hups.symm, ?_⟩
        cases hcu : caps.usd with
        | none => exact .inr ⟨rfl, rfl⟩
        | some u => exact .inl rfl
    · rw [if_neg hpush] at h3
      have hinj := Except.ok.inj h3
      rw [Prod.mk.injEq] at hinj
      obtain ⟨hst, hups⟩ := hinj
      refine ⟨caps.usd.getD (computeAmounts c tx p).usd, hF1, hF2, hF3',
        ?_, .inl hups.symm⟩
      intro b
      rw [← hst]
      show ((_ : GuardianState).increaseTotalRefundedPSP _).yearlyUsd b = _
      rw [yearlyUsd_incPSP, yearlyUsd_incYearly, hst1]
  · rw [if_neg hx] at h3
    exact absurd h3 (by simp)

/-- Successful outcomes of the for-loop body when no cleanup fires: either
    a budget guard rejects the transaction and nothing changes, or the
    transaction commits an amount w to the address's yearly USD counter
    with w at most the re-derived USD amount, the updated counter within
    the yearly budget, and the staged row (if any) carrying either the
    capped amount w or its untouched stored amount. -/
theorem processTx_ok_commit (c : Consts) (st : GuardianState) (ups : List Row)
    (tx : Row) (st' : GuardianState) (ups' : List Row)
    (h : processTx c st tx.epoch ups tx = .ok (st', ups')) :
    (st' = st ∧ ups' = ups) ∨
    (∃ p w, getRefundPercent tx.totalStakeAmountPSP = some p ∧
      w ≤ (computeAmounts c tx p).usd ∧
      qAdd (st.yearlyUsd tx.address) w ≤ maxUSDAddressBudgetYearly ∧
      (0 ≤ w ∨ w = (computeAmounts c tx p).usd) ∧
      (∀ b, st'.yearlyUsd b =
        if b = tx.address then qAdd (st.yearlyUsd tx.address) w else st.yearlyUsd b) ∧
      (ups' = ups ∨ ∃ pv v, ups' = ups ++ [{ tx with
          status := TxStatus.validated
          refundedAmountPSP := pv
          refundedAmountUSD := v }] ∧
        (v = w ∨ (v = tx.refundedAmountUSD ∧ w = (computeAmounts c tx p).usd)))) := by
  unfold processTx at h
  simp only [ne_eq, not_true_eq_false, if_false] at h
  cases hp : getRefundPercent tx.totalStakeAmountPSP with
  | none => rw [hp] at h; exact absurd h (by simp)
  | some p =>
    rw [hp] at h
    simp only [] at h
    by_cases hg : st.isMaxYearlyPSPGlobalBudgetSpent ∨
        st.hasSpentYearlyUSDBudget tx.address ∨
        (c.budgetLimitEpoch ≤ tx.epoch ∧ st.hasSpentUSDBudgetForEpoch tx.address)
    · rw [if_pos hg] at h
      left
      have hinj := Except.ok.inj h
      rw [Prod.mk.injEq] at hinj
      exact ⟨hinj.1.symm, hinj.2.symm⟩
    · rw [if_neg hg] at h
      right
      rcases lt_or_ge tx.epoch c.budgetLimitEpoch with hlt | hge
      · rw [if_pos hlt] at h
        obtain ⟨caps, hcap, h2⟩ := exceptBind_eq_ok _ _ _ h
        rcases capYearly_ok _ _ _ _ _ hcap with ⟨heq, hle⟩ | ⟨pv0, heq, hnn, hover⟩
        · subst heq
          obtain ⟨w, hw⟩ := processTx_posttail c st ups tx p ⟨none, none⟩ st' ups' hp
            (le_refl _) hle (.inr rfl) h2
          exact ⟨p, w, rfl, hw⟩
        · subst heq
          obtain ⟨w, hw⟩ := processTx_posttail c st ups tx p
            ⟨some (qSub maxUSDAddressBudgetYearly (st.yearlyUsd tx.address)), some pv0⟩
            st' ups' hp
            (by simp only [Option.getD]
                rw [qSub_eq]
                rw [qAdd_eq] at hover
                linarith)
            (by simp only [Option.getD]
                rw [qAdd_eq, qSub_eq]
                linarith)
            (.inl (by simp only [Option.getD]; exact hnn)) h2
          exact ⟨p, w, rfl, hw⟩
      · rw [if_neg (not_lt.mpr hge)] at h
        obtain ⟨caps, hcap, h2⟩ := exceptBind_eq_ok _ _ _ h
        rcases capEpoch_ok _ _ _ _ _ hcap with ⟨heq, hle⟩ |
            ⟨pv0, heq, hnn, hover⟩ | ⟨pv0, heq, hnn, hyle, hover⟩
        · subst heq
          obtain ⟨w, hw⟩ := processTx_posttail c st ups tx p ⟨none, none⟩ st' ups' hp
            (le_refl _) hle (.inr rfl) h2
          exact ⟨p, w, rfl, hw⟩
        · subst heq
          obtain ⟨w, hw⟩ := processTx_posttail c st ups tx p
            ⟨some (qSub maxUSDAddressBudgetYearly (st.yearlyUsd tx.address)), some pv0⟩
            st' ups' hp
            (by simp only [Option.getD]
                rw [qSub_eq]
                rw [qAdd_eq] at hover
                linarith)
            (by simp only [Option.getD]
                rw [qAdd_eq, qSub_eq]
                linarith)
            (.inl (by simp only [Option.getD]; exact hnn)) h2
          exact ⟨p, w, rfl, hw⟩
        · subst heq
          obtain ⟨w, hw⟩ := processTx_posttail c st ups tx p
            ⟨some (qSub maxUSDAddressBudgetEpoch (st.epochUsd tx.address)), some pv0⟩
            st' ups' hp
            (by simp only [Option.getD]
                rw [qSub_eq]
                rw [qAdd_eq] at hover
                linarith)
            (by simp only [Option.getD]
                rw [qAdd_eq]
                rw [qAdd_eq] at hyle hover
                rw [qSub_eq]
                linarith)
            (.inl (by simp only [Option.getD]; exact hnn)) h2
          exact ⟨p, w, rfl, hw⟩

theorem yearUSDSum_push (c : Consts) (U : List Row) (u : Row) (a : String) (y : ℤ) :
    yearUSDSum c (U ++ [u]) a y = yearUSDSum c U a y +
      (if rowCounts c a y u then u.refundedAmountUSD else 0) := by
  rw [yearUSDSum_append, yearUSDSum_singleton]

/-- Effect of the epoch-change cleanup on the yearly USD map: untouched
    unless the row's epoch sits on a year boundary and differs from the
    previous row's epoch, in which case the map is cleared. -/
theorem cleanFor_yearlyUsd (c : Consts) (st : GuardianState) (prev e : ℤ) :
    (∀ b, (cleanFor c st prev e).yearlyUsd b = st.yearlyUsd b) ∨
    (prev ≠ e ∧ (e - c.genesisEpoch) % totalEpochsInYear = 0 ∧
      ∀ b, (cleanFor c st prev e).yearlyUsd b = 0) := by
  unfold cleanFor
  by_cases h1 : prev ≠ e
  · rw [if_pos h1]
    simp only []
    by_cases h2 : (e - c.genesisEpoch) % totalEpochsInYear = 0
    · rw [if_pos h2]
      exact .inr ⟨h1, h2, fun b => rfl⟩
    · rw [if_neg h2]
      exact .inl (fun b => rfl)
  · rw [if_neg h1]
    exact .inl (fun b => rfl)

/-- When a year boundary is crossed at epoch e0, every year block that
    contains an epoch at or beyond e0 contains no epoch below e0, so both
    the persisted and the staged sums for such a year vanish. -/
theorem sums_zero_of_reset (c : Consts) (db : List Row) (s : ℤ) (U : List Row)
    (e0 : ℤ) (g26 : (e0 - c.genesisEpoch) % totalEpochsInYear = 0)
    (hlt : ∀ r ∈ db, r.status ≠ .idle → r.epoch < s)
    (hU : ∀ u ∈ U, u.epoch < e0)
    (hse : s ≤ e0)
    (a : String) (y : ℤ) (r : Row) (hre : e0 ≤ r.epoch)
    (hin : inYear c y r.epoch = true) :
    yearUSDSum c db a y = 0 ∧ yearUSDSum c U a y = 0 := by
  have g26' : (e0 - c.genesisEpoch) % 26 = 0 := g26
  have key : ∀ e' : ℤ, e' < e0 → ¬ (inYear c y e' = true) := by
    intro e' he'
    simp only [inYear, Bool.and_eq_true, decide_eq_true_eq] at hin ⊢
    omega
  constructor
  · apply yearUSDSum_eq_zero
    intro r' hr' hcnt
    have hni : r'.status ≠ .idle := by
      rw [hcnt.1]
      intro hcontra
      exact absurd hcontra (by decide)
    exact key r'.epoch (by have := hlt r' hr' hni; omega) hcnt.2.2
  · apply yearUSDSum_eq_zero
    intro u hu hcnt
    exact key u.epoch (hU u hu) hcnt.2.2

/-- Invariant of the page fold: through any successful prefix of the page,
    every (address, year) sum of persisted validated rows plus staged rows
    stays within the yearly budget; staged rows always carry VALIDATED,
    match an IDLE table row, and have distinct ids drawn from the page. -/
theorem goPage_inv (c : Consts) (bshort : Bool) (db : List Row) (s : ℤ)
    (hlt : ∀ r ∈ db, r.status ≠ .idle → r.epoch < s) :
    ∀ (R : List Row) (st : GuardianState) (prev : ℤ) (U : List Row)
      (st' : GuardianState) (U' : List Row),
    goPage c bshort st prev U R = .ok (st', U') →
    s ≤ prev →
    (∀ r ∈ R, r ∈ db ∧ r.status = .idle ∧ prev ≤ r.epoch) →
    List.Pairwise (fun u v : Row => u.epoch ≤ v.epoch) R →
    (∀ r ∈ R, (getRefundPercent r.totalStakeAmountPSP).isSome ∧
      0 ≤ (computeAmounts c r ((getRefundPercent r.totalStakeAmountPSP).getD 0)).usd ∧
      r.refundedAmountUSD ≤
        (computeAmounts c r ((getRefundPercent r.totalStakeAmountPSP).getD 0)).usd) →
    (∀ u ∈ U, u.epoch ≤ prev) →
    (∀ u ∈ U, u.status = TxStatus.validated ∧ ∃ r0, r0 ∈ db ∧ r0.id = u.id ∧
      r0.status = TxStatus.idle ∧ r0.epoch = u.epoch ∧ r0.address = u.address) →
    (U.map (fun u => u.id) ++ R.map (fun r => r.id)).Nodup →
    (∀ a y, yearUSDSum c db a y + yearUSDSum c U a y ≤ maxUSDAddressBudgetYearly) →
    (∀ a y, (∃ r, r ∈ R ∧ r.address = a ∧ inYear c y r.epoch = true) →
      yearUSDSum c db a y + yearUSDSum c U a y ≤ st.yearlyUsd a) →
    ((∀ a y, yearUSDSum c db a y + yearUSDSum c U' a y ≤ maxUSDAddressBudgetYearly) ∧
     (∀ u ∈ U', u.status = TxStatus.validated ∧ ∃ r0, r0 ∈ db ∧ r0.id = u.id ∧
       r0.status = TxStatus.idle ∧ r0.epoch = u.epoch ∧ r0.address = u.address) ∧
     (U'.map (fun u => u.id)).Nodup ∧
     (∀ u ∈ U', u.id ∈ U.map (fun v => v.id) ++ R.map (fun r => r.id))) := by
  intro R
  induction R with
  | nil =>
    intro st prev U st' U' h hsp hR hpw hder hUe hUs hnd h4 h5
    simp only [goPage] at h
    have hinj := Except.ok.inj h
    rw [Prod.mk.injEq] at hinj
    obtain ⟨hst, hU⟩ := hinj
    subst hst
    subst hU
    rw [List.map_nil, List.append_nil] at hnd ⊢
    exact ⟨h4, hUs, hnd, fun u hu => List.mem_map_of_mem _ hu⟩
  | cons tx rest ih =>
    intro st prev U st' U' h hsp hR hpw hder hUe hUs hnd h4 h5
    simp only [goPage] at h
    obtain ⟨⟨st1, U1⟩, hpt, h2⟩ := exceptBind_eq_ok _ _ _ h
    simp only [] at h2
    rw [processTx_clean] at hpt
    have htxmem := hR tx (List.mem_cons_self tx rest)
    obtain ⟨htxdb, htxidle, htxprev⟩ := htxmem
    obtain ⟨hhead, htail⟩ := List.pairwise_cons.mp hpw
    have hi50 : ∀ a y, (∃ r, r ∈ tx :: rest ∧ r.address = a ∧ inYear c y r.epoch = true) →
        yearUSDSum c db a y + yearUSDSum c U a y ≤
          (cleanFor c st prev tx.epoch).yearlyUsd a := by
      rcases cleanFor_yearlyUsd c st prev tx.epoch with hsame | ⟨hne, hdvd, hzero⟩
      · intro a y hopen
        rw [hsame a]
        exact h5 a y hopen
      · intro a y ⟨r, hrm, hra, hri⟩
        rw [hzero a]
        have hprevlt : prev < tx.epoch := lt_of_le_of_ne htxprev hne
        have hre : tx.epoch ≤ r.epoch := by
          rcases List.mem_cons.mp hrm with rfl | hrr
          · exact le_refl _
          · exact hhead r hrr
        obtain ⟨hz1, hz2⟩ := sums_zero_of_reset c db s U tx.epoch hdvd hlt
          (fun u hu => lt_of_le_of_lt (hUe u hu) hprevlt)
          (le_trans hsp (le_of_lt hprevlt)) a y r hre hri
        rw [hz1, hz2]
        simp
    -- post-step invariants
    have hstep := processTx_ok_commit c (cleanFor c st prev tx.epoch) U tx st1 U1 hpt
    have hpost : (∀ a y, yearUSDSum c db a y + yearUSDSum c U1 a y ≤
          maxUSDAddressBudgetYearly) ∧
        (∀ a y, (∃ r, r ∈ rest ∧ r.address = a ∧ inYear c y r.epoch = true) →
          yearUSDSum c db a y + yearUSDSum c U1 a y ≤ st1.yearlyUsd a) ∧
        (∀ u ∈ U1, u.epoch ≤ tx.epoch) ∧
        (∀ u ∈ U1, u.status = TxStatus.validated ∧ ∃ r0, r0 ∈ db ∧ r0.id = u.id ∧
          r0.status = TxStatus.idle ∧ r0.epoch = u.epoch ∧ r0.address = u.address) ∧
        ((U1.map (fun u => u.id) ++ rest.map (fun r => r.id)).Nodup) ∧
        (∀ u ∈ U1, u.id ∈ U.map (fun v => v.id) ++ (tx :: rest).map (fun r => r.id)) := by
      rcases hstep with ⟨hst1, hU1⟩ | ⟨p, w, hpct, hw1, hw2, hw3, hysh, hpushes⟩
      · subst hst1
        subst hU1
        refine ⟨h4, ?_, fun u hu => le_trans (hUe u hu) htxprev, hUs, ?_, ?_⟩
        · intro a y ⟨r, hrm, hra, hri⟩
          exact hi50 a y ⟨r, List.mem_cons_of_mem tx hrm, hra, hri⟩
        · refine List.Nodup.sublist ?_ hnd
          apply List.Sublist.append_left
          rw [List.map_cons]
          exact List.sublist_cons_self _ _
        · intro u hu
          exact List.mem_append_left _ (List.mem_map_of_mem _ hu)
      · -- a commit happened
        have hgetD : (getRefundPercent tx.totalStakeAmountPSP).getD 0 = p := by
          rw [hpct]; rfl
        have hderx := hder tx (List.mem_cons_self tx rest)
        have hw0 : 0 ≤ w := by
          rcases hw3 with h3 | h3
          · exact h3
          · rw [h3, ← hgetD]; exact hderx.2.1
        have hysha : ∀ b, st1.yearlyUsd b = if b = tx.address then
            qAdd ((cleanFor c st prev tx.epoch).yearlyUsd tx.address) w
          else (cleanFor c st prev tx.epoch).yearlyUsd b := hysh
        rcases hpushes with hU1 | ⟨pv, v, hU1, hv⟩
        · subst hU1
          refine ⟨h4, ?_, fun u hu => le_trans (hUe u hu) htxprev, hUs, ?_, ?_⟩
          · intro a y ⟨r, hrm, hra, hri⟩
            have hopen : ∃ r', r' ∈ tx :: rest ∧ r'.address = a ∧ inYear c y r'.epoch = true :=
              ⟨r, List.mem_cons_of_mem tx hrm, hra, hri⟩
            rw [hysha a]
            by_cases hax : a = tx.address
            · rw [if_pos hax, qAdd_eq]
              have hle0 := hi50 a y hopen
              rw [hax] at hle0 ⊢
              linarith
            · rw [if_neg hax]
              exact hi50 a y hopen
          · refine List.Nodup.sublist ?_ hnd
            apply List.Sublist.append_left
            rw [List.map_cons]
            exact List.sublist_cons_self _ _
          · intro u hu
            exact List.mem_append_left _ (List.mem_map_of_mem _ hu)
        · -- a row was staged
          subst hU1
          have hvw : v ≤ w := by
            rcases hv with rfl | ⟨hv1, hv2⟩
            · exact le_refl _
            · rw [hv1, hv2, ← hgetD]
              exact hderx.2.2
          have hupush : ∀ a y, yearUSDSum c (U ++ [{ tx with
              status := TxStatus.validated
              refundedAmountPSP := pv
              refundedAmountUSD := v }]) a y = yearUSDSum c U a y +
              (if (tx.address = a ∧ inYear c y tx.epoch = true) then v else 0) := by
            intro a y
            rw [yearUSDSum_push]
            congr 1
            by_cases hcnd : tx.address = a ∧ inYear c y tx.epoch = true
            · rw [if_pos hcnd, if_pos]
              rw [rowCounts_iff]
              exact ⟨rfl, hcnd.1, hcnd.2⟩
            · rw [if_neg hcnd, if_neg]
              rw [rowCounts_iff]
              intro hcontra
              exact hcnd ⟨hcontra.2.1, hcontra.2.2⟩
          refine ⟨?_, ?_, ?_, ?_, ?_, ?_⟩
          · intro a y
            rw [hupush a y]
            by_cases hcnd : tx.address = a ∧ inYear c y tx.epoch = true
            · rw [if_pos hcnd]
              have hopen : ∃ r', r' ∈ tx :: rest ∧ r'.address = a ∧
                  inYear c y r'.epoch = true :=
                ⟨tx, List.mem_cons_self tx rest, hcnd.1, hcnd.2⟩
              have hle0 := hi50 a y hopen
              rw [qAdd_eq] at hw2
              have hax : (cleanFor c st prev tx.epoch).yearlyUsd a =
                  (cleanFor c st prev tx.epoch).yearlyUsd tx.address := by
                rw [hcnd.1]
              rw [hax] at hle0
              linarith
            · rw [if_neg hcnd, add_zero]
              exact h4 a y
          · intro a y ⟨r, hrm, hra, hri⟩
            rw [hupush a y, hysha a]
            have hopen' : ∃ r', r' ∈ tx :: rest ∧ r'.address = a ∧
                inYear c y r'.epoch = true :=
              ⟨r, List.mem_cons_of_mem tx hrm, hra, hri⟩
            by_cases hax : a = tx.address
            · rw [if_pos hax, qAdd_eq]
              by_cases hcnd : tx.address = a ∧ inYear c y tx.epoch = true
              · rw [if_pos hcnd]
                have hle0 := hi50 a y hopen'
                rw [hax] at hle0 ⊢
                linarith
              · rw [if_neg hcnd, add_zero]
                have hle0 := hi50 a y hopen'
                rw [hax] at hle0 ⊢
                linarith
            · have hcnd' : ¬ (tx.address = a ∧ inYear c y tx.epoch = true) :=
                fun hcontra => hax hcontra.1.symm
              rw [if_neg hax]
              rw [if_neg hcnd']
              rw [add_zero]
              exact hi50 a y hopen'
          · intro u hu
            rcases List.mem_append.mp hu with hu | hu
            · exact le_trans (hUe u hu) htxprev
            · rw [List.mem_singleton.mp hu]
          · intro u hu
            rcases List.mem_append.mp hu with hu | hu
            · exact hUs u hu
            · rw [List.mem_singleton.mp hu]
              exact ⟨rfl, tx, htxdb, rfl, htxidle, rfl, rfl⟩
          · rw [List.map_append, List.map_singleton, List.append_assoc,
              List.singleton_append]
            exact hnd
          · intro u hu
            rcases List.mem_append.mp hu with hu | hu
            · exact List.mem_append_left _ (List.mem_map_of_mem _ hu)
            · rw [List.mem_singleton.mp hu]
              apply List.mem_append_right
              rw [List.map_cons]
              exact List.mem_cons_self _ _
    obtain ⟨hp4, hp5, hpUe, hpUs, hpnd, hpmem⟩ := hpost
    by_cases hbs : bshort = true
    · rw [if_pos hbs] at h2
      have hinj := Except.ok.inj h2
      rw [Prod.mk.injEq] at hinj
      obtain ⟨hst, hU⟩ := hinj
      subst hst
      subst hU
      refine ⟨hp4, hpUs, ?_, ?_⟩
      · exact (List.Nodup.sublist (List.sublist_append_left _ _) hpnd)
      · intro u hu
        exact hpmem u hu
    · rw [if_neg hbs] at h2
      have hres := ih st1 tx.epoch U1 st' U' h2 (le_trans hsp htxprev)
        (fun r hr => ⟨(hR r (List.mem_cons_of_mem tx hr)).1,
          (hR r (List.mem_cons_of_mem tx hr)).2.1, hhead r hr⟩)
        htail
        (fun r hr => hder r (List.mem_cons_of_mem tx hr))
        hpUe hpUs hpnd hp4 hp5
      refine ⟨hres.1, hres.2.1, hres.2.2.1, ?_⟩
      intro u hu
      rcases List.mem_append.mp (hres.2.2.2 u hu) with hm | hm
      · obtain ⟨u0, hu0, hid⟩ := List.mem_map.mp hm
        rw [← hid]
        exact hpmem u0 hu0
      · apply List.mem_append_right
        rw [List.map_cons]
        exact List.mem_cons_of_mem _ hm

def updRow (r u : Row) : Row :=
  { r with status := u.status, refundedAmountPSP := u.refundedAmountPSP, refundedAmountUSD := u.refundedAmountUSD }

theorem applyUpdates_eq_map (db U : List Row) :
    applyUpdates db U = db.map (fun r =>
      match (U.filter (fun u => u.id = r.id)).getLast? with
      | some u => updRow r u
      | none => r) := rfl

theorem applyUpdates_nil (db : List Row) : applyUpdates db [] = db := by
  rw [applyUpdates_eq_map]
  have hpt : ∀ r : Row, (match (([] : List Row).filter (fun u => u.id = r.id)).getLast? with
      | some u => updRow r u
      | none => r) = r := fun r => rfl
  rw [List.map_congr_left (fun r _ => hpt r)]
  exact List.map_id' db

theorem applyUpdates_append_single (db U : List Row) (u : Row) :
    applyUpdates db (U ++ [u]) = applyUpdates (applyUpdates db U) [u] := by
  rw [applyUpdates_eq_map, applyUpdates_eq_map, applyUpdates_eq_map, List.map_map]
  apply List.map_congr_left
  intro r _
  simp only [Function.comp]
  have hidpres : (match (U.filter (fun (v : Row) => v.id = r.id)).getLast? with
      | some v => updRow r v
      | none => r).id = r.id := by
    generalize (U.filter (fun (v : Row) => v.id = r.id)).getLast? = o
    cases o <;> rfl
  rw [List.filter_append]
  have hfeq : ∀ l : List Row, l.filter (fun v => v.id =
      (match (U.filter (fun (v2 : Row) => v2.id = r.id)).getLast? with
        | some v2 => updRow r v2
        | none => r).id) = l.filter (fun v => v.id = r.id) := by
    intro l
    apply List.filter_congr
    intro v _
    rw [hidpres]
  rw [hfeq]
  by_cases hid : u.id = r.id
  · have hfu : [u].filter (fun v => v.id = r.id) = [u] := by
      simp [List.filter_cons, hid]
    rw [hfu, List.getLast?_concat]
    simp only []
    generalize (U.filter (fun v => v.id = r.id)).getLast? = o
    cases o with
    | none => rfl
    | some v => rfl
  · have hfu : [u].filter (fun v => v.id = r.id) = [] := by
      simp [List.filter_cons, hid]
    rw [hfu, List.append_nil]
    rfl

theorem updMatch_id (U : List Row) (r : Row) :
    (match (U.filter (fun (v : Row) => v.id = r.id)).getLast? with
      | some v => updRow r v
      | none => r).id = r.id := by
  generalize (U.filter (fun (v : Row) => v.id = r.id)).getLast? = o
  cases o <;> rfl

theorem applyUpdates_pt_no_match (U : List Row) (r : Row)
    (h : ∀ v ∈ U, v.id ≠ r.id) :
    (match (U.filter (fun (v : Row) => v.id = r.id)).getLast? with
      | some v => updRow r v
      | none => r) = r := by
  have hfil : U.filter (fun (v : Row) => v.id = r.id) = [] := by
    rw [List.filter_eq_nil_iff]
    intro v hv
    simp only [decide_eq_true_eq]
    exact h v hv
  rw [hfil]
  rfl

theorem applyUpdates_ids (db U : List Row) :
    (applyUpdates db U).map (fun r => r.id) = db.map (fun r => r.id) := by
  rw [applyUpdates_eq_map, List.map_map]
  apply List.map_congr_left
  intro r _
  simp only [Function.comp]
  exact updMatch_id U r

theorem applyUpdates_single_yearSum (c : Consts) (a : String) (y : ℤ) :
    ∀ (db : List Row) (u : Row),
    ((db.map (fun r => r.id)).Nodup) →
    (∃ r0, r0 ∈ db ∧ r0.id = u.id ∧ r0.status = TxStatus.idle ∧
      r0.epoch = u.epoch ∧ r0.address = u.address) →
    u.status = TxStatus.validated →
    yearUSDSum c (applyUpdates db [u]) a y =
      yearUSDSum c db a y + (if rowCounts c a y u then u.refundedAmountUSD else 0) := by
  intro db
  induction db with
  | nil =>
    intro u _ hex _
    obtain ⟨r0, hr0, _⟩ := hex
    exact absurd hr0 (List.not_mem_nil r0)
  | cons x xs ih =>
    intro u hnd hex hval
    have hxs : applyUpdates (x :: xs) [u] =
        (match ([u].filter (fun (v : Row) => v.id = x.id)).getLast? with
          | some v => updRow x v
          | none => x) :: applyUpdates xs [u] := by
      rw [applyUpdates_eq_map, List.map_cons, ← applyUpdates_eq_map]
    rw [hxs]
    rw [List.map_cons, List.nodup_cons] at hnd
    by_cases hx : x.id = u.id
    · have hx0 : ∀ r0, r0 ∈ x :: xs → r0.id = u.id → r0 = x := by
        intro r0 hr0 hid0
        rcases List.mem_cons.mp hr0 with rfl | hmem
        · rfl
        · exfalso
          apply hnd.1
          rw [hx, ← hid0]
          exact List.mem_map_of_mem _ hmem
      obtain ⟨r0, hr0m, hr0id, hr0idle, hr0ep, hr0ad⟩ := hex
      have hr0x := hx0 r0 hr0m hr0id
      rw [hr0x] at hr0idle hr0ep hr0ad
      have hfu : [u].filter (fun (v : Row) => v.id = x.id) = [u] := by
        have : u.id = x.id := hx.symm
        simp [List.filter_cons, this]
      have hptx : (match ([u].filter (fun (v : Row) => v.id = x.id)).getLast? with
          | some v => updRow x v
          | none => x) = updRow x u := by
        rw [hfu]
        rfl
      rw [hptx]
      have hnomatch : applyUpdates xs [u] = xs := by
        rw [applyUpdates_eq_map]
        have hpt : ∀ r ∈ xs, (match ([u].filter (fun (v : Row) => v.id = r.id)).getLast? with
            | some v => updRow r v
            | none => r) = r := by
          intro r hr
          apply applyUpdates_pt_no_match
          intro v hv
          rw [List.mem_singleton.mp hv]
          intro hc
          apply hnd.1
          rw [hx, hc]
          exact List.mem_map_of_mem _ hr
        rw [List.map_congr_left hpt]
        exact List.map_id' xs
      rw [hnomatch, yearUSDSum_cons, yearUSDSum_cons]
      have hcx : rowCounts c a y x = false := by
        rw [← Bool.not_eq_true, rowCounts_iff]
        intro hc
        rw [hr0idle] at hc
        exact absurd hc.1 (by decide)
      have hcu : rowCounts c a y (updRow x u) = rowCounts c a y u := by
        unfold rowCounts updRow
        simp only []
        rw [hr0ep, hr0ad]
      rw [hcx, hcu]
      simp only [Bool.false_eq_true, if_false, zero_add]
      have huval : (updRow x u).refundedAmountUSD = u.refundedAmountUSD := rfl
      rw [huval]
      ring
    · have hfu : [u].filter (fun (v : Row) => v.id = x.id) = [] := by
        have : ¬ (u.id = x.id) := fun hc => hx hc.symm
        simp [List.filter_cons, this]
      have hptx : (match ([u].filter (fun (v : Row) => v.id = x.id)).getLast? with
          | some v => updRow x v
          | none => x) = x := by
        rw [hfu]
        rfl
      rw [hptx]
      have hex' : ∃ r0, r0 ∈ xs ∧ r0.id = u.id ∧ r0.status = TxStatus.idle ∧
          r0.epoch = u.epoch ∧ r0.address = u.address := by
        obtain ⟨r0, hr0m, hr0id, hrest⟩ := hex
        rcases List.mem_cons.mp hr0m with rfl | hmem
        · exact absurd hr0id hx
        · exact ⟨r0, hmem, hr0id, hrest⟩
      rw [yearUSDSum_cons, yearUSDSum_cons, ih u hnd.2 hex' hval]
      ring

theorem applyUpdates_yearSum (c : Consts) (a : String) (y : ℤ) (db : List Row)
    (hnd : (db.map (fun r => r.id)).Nodup) :
    ∀ (U : List Row),
    ((U.map (fun v => v.id)).Nodup) →
    (∀ u ∈ U, u.status = TxStatus.validated ∧ ∃ r0, r0 ∈ db ∧ r0.id = u.id ∧
      r0.status = TxStatus.idle ∧ r0.epoch = u.epoch ∧ r0.address = u.address) →
    yearUSDSum c (applyUpdates db U) a y = yearUSDSum c db a y + yearUSDSum c U a y := by
  intro U
  induction U using List.reverseRecOn with
  | nil =>
    intro _ _
    rw [applyUpdates_nil, yearUSDSum_nil, add_zero]
  | append_singleton U u ih =>
    intro hnodup hstruct
    have humem : u ∈ U ++ [u] := List.mem_append_right _ (List.mem_singleton_self u)
    have hustr := hstruct u humem
    have hnodup' : (U.map (fun v => v.id)).Nodup := by
      rw [List.map_append] at hnodup
      exact List.Nodup.sublist (List.sublist_append_left _ _) hnodup
    have huid : u.id ∉ U.map (fun v => v.id) := by
      rw [List.map_append, List.map_singleton] at hnodup
      have := (List.nodup_append.mp hnodup).2.2
      intro hc
      exact this hc (List.mem_singleton_self _)
    obtain ⟨r0, hr0m, hr0id, hr0idle, hr0ep, hr0ad⟩ := hustr.2
    have hr0db1 : r0 ∈ applyUpdates db U ∧ r0.id = u.id ∧ r0.status = TxStatus.idle ∧
        r0.epoch = u.epoch ∧ r0.address = u.address := by
      have hptr : (match (U.filter (fun (v : Row) => v.id = r0.id)).getLast? with
          | some v => updRow r0 v
          | none => r0) = r0 := by
        apply applyUpdates_pt_no_match
        intro v hv hc
        apply huid
        rw [← hr0id, ← hc]
        exact List.mem_map_of_mem _ hv
      refine ⟨?_, hr0id, hr0idle, hr0ep, hr0ad⟩
      rw [applyUpdates_eq_map]
      have hmm := List.mem_map_of_mem (fun r => match (U.filter
          (fun (v : Row) => v.id = r.id)).getLast? with
        | some v => updRow r v
        | none => r) hr0m
      simp only [] at hmm
      rw [hptr] at hmm
      exact hmm
    rw [applyUpdates_append_single]
    rw [applyUpdates_single_yearSum c a y (applyUpdates db U) u
      (by rw [applyUpdates_ids]; exact hnd)
      ⟨r0, hr0db1.1, hr0db1.2⟩ hustr.1]
    rw [ih hnodup' (fun v hv => hstruct v (List.mem_append_left _ hv))]
    rw [yearUSDSum_push]
    ring

theorem updMatch_epoch (U : List Row) (r : Row) :
    (match (U.filter (fun (v : Row) => v.id = r.id)).getLast? with
      | some v => updRow r v
      | none => r).epoch = r.epoch := by
  generalize (U.filter (fun (v : Row) => v.id = r.id)).getLast? = o
  cases o <;> rfl

theorem length_scanOf_applyUpdates (db U : List Row) (s : ℤ) :
    (scanOf (applyUpdates db U) s).length = (scanOf db s).length := by
  unfold scanOf
  rw [(sortRows_perm _).length_eq, (sortRows_perm _).length_eq]
  rw [applyUpdates_eq_map, List.filter_map, List.length_map]
  congr 1
  apply List.filter_congr
  intro r _
  simp only [Function.comp]
  rw [updMatch_epoch U r]

/-- C5 (amended): if the persisted table already satisfies the
    per-(address, year) yearly USD invariant, stored USD amounts are
    nonnegative and bounded by their re-derived values, the scan's epochs
    are nondecreasing, and ids are unique, then after a completed
    re-validation pass the invariant still holds for every address and
    year. -/
theorem claimC5_amended (c : Consts) (ps : ℕ) (db db' : List Row)
    (a : String) (y : ℤ)
    (h0 : 0 < c.genesisEpoch)
    (hids : (db.map (fun r => r.id)).Nodup)
    (hnn : ∀ r ∈ db, 0 ≤ r.refundedAmountUSD)
    (hmono : List.Pairwise (fun u v : Row => u.epoch ≤ v.epoch)
      (scanOf db (startEpochFor c (fetchLastEpochRefunded db))))
    (hder : ∀ r ∈ scanOf db (startEpochFor c (fetchLastEpochRefunded db)),
      (getRefundPercent r.totalStakeAmountPSP).isSome ∧
      0 ≤ (computeAmounts c r ((getRefundPercent r.totalStakeAmountPSP).getD 0)).usd ∧
      r.refundedAmountUSD ≤
        (computeAmounts c r ((getRefundPercent r.totalStakeAmountPSP).getD 0)).usd)
    (hpre : ∀ a' y', yearUSDSum c db a' y' ≤ maxUSDAddressBudgetYearly)
    (hok : validateTransactionsP c ps db = .ok db') :
    yearUSDSum c db' a y ≤ maxUSDAddressBudgetYearly := by
  have hlt : ∀ r ∈ db, r.status ≠ .idle →
      r.epoch < startEpochFor c (fetchLastEpochRefunded db) :=
    nonIdle_lt_start c db h0
  have hscandb : ∀ r ∈ scanOf db (startEpochFor c (fetchLastEpochRefunded db)), r ∈ db :=
    fun r hr => ((mem_scanOf db _ r).mp hr).1
  have hscanidle : ∀ r ∈ scanOf db (startEpochFor c (fetchLastEpochRefunded db)),
      r.status = .idle := by
    intro r hr
    by_contra hni
    have h1 := hlt r (hscandb r hr) hni
    have h2 := ((mem_scanOf db _ r).mp hr).2
    omega
  unfold validateTransactionsP at hok
  rw [show db.length + 2 = (db.length + 1) + 1 from rfl] at hok
  unfold loopPages at hok
  simp only [] at hok
  by_cases hemp : (scanSlice db (startEpochFor c (fetchLastEpochRefunded db)) 0 ps).isEmpty = true
  · rw [if_pos hemp] at hok
    rw [← Except.ok.inj hok]
    exact hpre a y
  · rw [if_neg hemp] at hok
    obtain ⟨⟨st1, U1⟩, hpp, h2⟩ := exceptBind_eq_ok _ _ _ hok
    simp only [] at h2
    by_cases hci : countIdle (applyUpdates db U1) = 0
    · rw [if_pos hci] at h2
      -- the processed page is the head slice of the scan
      have hslicetake : scanSlice db (startEpochFor c (fetchLastEpochRefunded db)) 0 ps =
          (scanOf db (startEpochFor c (fetchLastEpochRefunded db))).take ps := by
        unfold scanSlice
        rw [List.drop_zero]
      have hsne : scanSlice db (startEpochFor c (fetchLastEpochRefunded db)) 0 ps ≠ [] := by
        intro hcon
        apply hemp
        rw [hcon]
        rfl
      obtain ⟨hd, tl, hslc⟩ := List.exists_cons_of_ne_nil hsne
      have htk : hd :: tl =
          (scanOf db (startEpochFor c (fetchLastEpochRefunded db))).take ps := by
        rw [← hslc, hslicetake]
      have hslicescan : ∀ r ∈ hd :: tl,
          r ∈ scanOf db (startEpochFor c (fetchLastEpochRefunded db)) := by
        intro r hr
        rw [htk] at hr
        exact List.take_subset _ _ hr
      rw [hslc] at hpp
      unfold processPage at hpp
      simp only [] at hpp
      have hpw : List.Pairwise (fun u v : Row => u.epoch ≤ v.epoch) (hd :: tl) := by
        rw [htk]
        exact List.Pairwise.sublist (List.take_sublist _ _) hmono
      have hginv := goPage_inv c _ db (startEpochFor c (fetchLastEpochRefunded db)) hlt
        (hd :: tl) (loadStateFromDB db (startEpochFor c (fetchLastEpochRefunded db)))
        hd.epoch [] st1 U1 hpp
        (((mem_scanOf db _ hd).mp (hslicescan hd (List.mem_cons_self hd tl))).2)
        (by
          intro r hr
          refine ⟨hscandb r (hslicescan r hr), hscanidle r (hslicescan r hr), ?_⟩
          rcases List.mem_cons.mp hr with rfl | hmem
          · exact le_refl _
          · exact (List.pairwise_cons.mp hpw).1 r hmem)
        hpw
        (fun r hr => hder r (hslicescan r hr))
        (fun u hu => absurd hu (List.not_mem_nil u))
        (fun u hu => absurd hu (List.not_mem_nil u))
        (by
          rw [List.map_nil, List.nil_append, htk, List.map_take]
          exact List.Nodup.sublist (List.take_sublist _ _) (scanOf_nodup_ids db _ hids))
        (by
          intro a' y'
          rw [yearUSDSum_nil, add_zero]
          exact hpre a' y')
        (by
          intro a' y' hopen
          rw [yearUSDSum_nil, add_zero]
          exact yearUSDSum_le_load c db _ a' y' hlt hnn)
      obtain ⟨hc4, hcUs, hcnd, hcmem⟩ := hginv
      -- the next page is empty in a successful run
      have hlen2 : (scanOf db (startEpochFor c (fetchLastEpochRefunded db))).length ≤ ps := by
        by_contra hgt
        push_neg at hgt
        have hdropne : (scanOf db (startEpochFor c (fetchLastEpochRefunded db))).drop ps ≠ [] := by
          intro hcon
          have hce := congrArg List.length hcon
          rw [List.length_drop, List.length_nil] at hce
          omega
        obtain ⟨r, hr⟩ := List.exists_mem_of_ne_nil _ hdropne
        have hrscan : r ∈ scanOf db (startEpochFor c (fetchLastEpochRefunded db)) :=
          List.drop_subset _ _ hr
        have hidnotin : ∀ u ∈ U1, u.id ≠ r.id := by
          intro u hu hcid
          have hmem := hcmem u hu
          rw [List.map_nil, List.nil_append, htk] at hmem
          have hnodupscan := scanOf_nodup_ids db
            (startEpochFor c (fetchLastEpochRefunded db)) hids
          have hsplit : (scanOf db (startEpochFor c (fetchLastEpochRefunded db))).map
              (fun r => r.id) =
              ((scanOf db (startEpochFor c (fetchLastEpochRefunded db))).take ps).map
                (fun r => r.id) ++
              ((scanOf db (startEpochFor c (fetchLastEpochRefunded db))).drop ps).map
                (fun r => r.id) := by
            rw [← List.map_append, List.take_append_drop]
          rw [hsplit] at hnodupscan
          have hdisj := (List.nodup_append.mp hnodupscan).2.2
          rw [List.map_take] at hmem
          apply hdisj (List.map_take _ _ _ ▸ hmem)
          rw [hcid]
          exact List.mem_map_of_mem _ hr
        have hrdb1 : r ∈ applyUpdates db U1 := by
          rw [applyUpdates_eq_map]
          have hpt := applyUpdates_pt_no_match U1 r hidnotin
          have hmm := List.mem_map_of_mem (fun r => match (U1.filter
              (fun (v : Row) => v.id = r.id)).getLast? with
            | some v => updRow r v
            | none => r) (hscandb r hrscan)
          simp only [] at hmm
          rw [hpt] at hmm
          exact hmm
        exact countIdle_eq_zero (applyUpdates db U1) hci r hrdb1 (hscanidle r hrscan)
      have hslice2 : scanSlice (applyUpdates db U1)
          (startEpochFor c (fetchLastEpochRefunded db)) (0 + ps) ps = [] := by
        unfold scanSlice
        have hdnil : (scanOf (applyUpdates db U1)
            (startEpochFor c (fetchLastEpochRefunded db))).drop (0 + ps) = [] := by
          apply List.drop_eq_nil_of_le
          rw [length_scanOf_applyUpdates]
          omega
        rw [hdnil, List.take_nil]
      have hdb' : db' = applyUpdates db U1 := by
        unfold loopPages at h2
        rw [if_pos (by rw [hslice2]; rfl)] at h2
        exact (Except.ok.inj h2).symm
      rw [hdb']
      rw [applyUpdates_yearSum c a y db hids U1 hcnd hcUs]
      exact hc4 a y
    · rw [if_neg hci] at h2
      exact absurd h2 (by simp)

/-- C5 witness: the amended C5 invariant applied to the two-row fresh
    table processed with page size 2. -/
theorem claimC5_witness :
    yearUSDSum cSample
      [{ rowFresh1 with status := TxStatus.validated },
       { rowFresh2 with status := TxStatus.validated }] "0xa" 0 ≤
      maxUSDAddressBudgetYearly :=
  claimC5_amended cSample 2 [rowFresh1, rowFresh2]
    [{ rowFresh1 with status := TxStatus.validated },
     { rowFresh2 with status := TxStatus.validated }] "0xa" 0
    (by decide) (by decide) (by decide) (by decide) (by decide)
    (by
      intro a' y'
      have hz : yearUSDSum cSample [rowFresh1, rowFresh2] a' y' = 0 := by
        apply yearUSDSum_eq_zero
        intro r hr hc
        rcases List.mem_cons.mp hr with rfl | hr2
        · exact absurd hc.1 (by decide)
        · rw [List.mem_singleton.mp hr2] at hc
          exact absurd hc.1 (by decide)
      rw [hz]
      decide)
    (by decide)

end GRP

